import Mathlib

/-!
Verification development for the response-normalization and confidence-scoring
layer of the agent-orchestration backend (`backend/src/services/geminiService.ts`
and `backend/src/services/promptTestingService.ts`).

The TypeScript code is shallowly embedded: JSON/JavaScript runtime values are
the inductive `JVal` (with a `nan` constructor for the IEEE NaN the scoring
arithmetic can produce), JavaScript numbers are `JNum := Option ℚ` with `none`
playing NaN, property access that would throw a TypeError on `null`/`undefined`
receivers is `Except`-valued, and `Math.round` is `jsRound`.  Strings are
processed at the `List Char` level to model the specific regular expressions
appearing in the source.  ASCII case conventions are assumed throughout
(the repository only processes ASCII identifiers and prose).
-/

namespace AgentOrch

/-! ### Character and string utilities -/

def lbrace : Char := Char.ofNat 123

def rbrace : Char := Char.ofNat 125

def dquote : Char := Char.ofNat 34

def bslash : Char := Char.ofNat 92

/-- ASCII whitespace recognized by the JavaScript `\s` class and `trim`. -/
def isWsChar (c : Char) : Bool :=
  c = ' ' || c = Char.ofNat 9 || c = Char.ofNat 10 || c = Char.ofNat 13 ||
  c = Char.ofNat 11 || c = Char.ofNat 12

def trimChars (cs : List Char) : List Char :=
  ((cs.dropWhile isWsChar).reverse.dropWhile isWsChar).reverse

/-- `String.prototype.trim` (ASCII model). -/
def jsTrim (s : String) : String := String.mk (trimChars s.data)

/-- index of the leftmost occurrence of `needle` in `hay`. -/
def subFind (needle : List Char) : List Char → Option Nat
  | [] => if needle.isEmpty then some 0 else none
  | c :: t =>
    if needle.isPrefixOf (c :: t) then some 0
    else (subFind needle t).map (· + 1)

/-- `String.prototype.includes`. -/
def strIncludes (hay needle : String) : Bool :=
  (subFind needle.data hay.data).isSome

def asciiLower (c : Char) : Char :=
  if 'A' ≤ c && c ≤ 'Z' then Char.ofNat (c.toNat + 32) else c

/-- `String.prototype.toLowerCase` (ASCII model). -/
def lowerStr (s : String) : String := String.mk (s.data.map asciiLower)

def countOccurAux (pat : List Char) : List Char → Nat → Nat
  | _, 0 => 0
  | hay, fuel + 1 =>
    match subFind pat hay with
    | none => 0
    | some i => 1 + countOccurAux pat (hay.drop (i + pat.length)) fuel

/-- number of non-overlapping case-insensitive occurrences of `pat` in `hay`;
models `(hay.match(new RegExp(escapedPat, 'gi')) || []).length` where the
pattern has been regex-escaped, hence matches literally.  An empty pattern
matches once at every position.  The fuel `hay.length` dominates the number
of matches of a non-empty pattern, so exhaustion is unreachable. -/
def countOccur (pat hay : String) : Nat :=
  let p := (lowerStr pat).data
  let h := (lowerStr hay).data
  if p.isEmpty then h.length + 1 else countOccurAux p h h.length

def charIdx (c : Char) : List Char → Option Nat
  | [] => none
  | x :: t => if x = c then some 0 else (charIdx c t).map (· + 1)

def lastCharIdx (c : Char) (cs : List Char) : Option Nat :=
  (charIdx c cs.reverse).map (fun i => cs.length - 1 - i)

def startsWithChar (s : String) (c : Char) : Bool :=
  match s.data with
  | [] => false
  | x :: _ => x = c

def endsWithChar (s : String) (c : Char) : Bool :=
  match s.data.getLast? with
  | some x => x = c
  | none => false

/-- deduplication keeping first occurrences, as a JavaScript `Set` does. -/
def dedupFirstAux (seen : List String) : List String → List String
  | [] => []
  | x :: t =>
    if seen.contains x then dedupFirstAux seen t
    else x :: dedupFirstAux (x :: seen) t

def dedupFirst (l : List String) : List String := dedupFirstAux [] l

def isDigitChar (c : Char) : Bool := '0' ≤ c && c ≤ '9'

def digitsToNat (cs : List Char) : Nat :=
  cs.foldl (fun acc c => acc * 10 + (c.toNat - 48)) 0

/-- canonical array-index strings, as used by JavaScript property lookup. -/
def parseIndex (s : String) : Option Nat :=
  match s.data with
  | [] => none
  | c :: rest =>
    if (c :: rest).all isDigitChar && (c ≠ '0' || rest.isEmpty) then
      some (digitsToNat (c :: rest))
    else none

def isWordChar (c : Char) : Bool :=
  isDigitChar c || ('a' ≤ c && c ≤ 'z') || ('A' ≤ c && c ≤ 'Z') || c = '_'

def wsWord : List Char → Bool
  | [] => false
  | c :: rest => if isWsChar c then wsWord rest else isWordChar c

def afterHashes : List Char → Bool
  | [] => false
  | c :: rest => if c = '#' then afterHashes rest else (isWsChar c && wsWord rest)

/-- whether the regex `#+\s+\w+` matches somewhere in the text. -/
def hasHeading : List Char → Bool
  | [] => false
  | c :: rest => (c = '#' && afterHashes rest) || hasHeading rest

mutual

def splitWsAux (cur : List Char) : List Char → List String
  | [] => [String.mk cur.reverse]
  | c :: rest =>
    if isWsChar c then String.mk cur.reverse :: splitWsRun rest
    else splitWsAux (c :: cur) rest

def splitWsRun : List Char → List String
  | [] => [""]
  | c :: rest => if isWsChar c then splitWsRun rest else splitWsAux [c] rest

end

/-- `String.prototype.split(/\s+/)`, including the leading/trailing empty
strings JavaScript produces when the string starts or ends with whitespace. -/
def jsSplitWs (s : String) : List String := splitWsAux [] s.data

/-! ### JavaScript values -/

/-- JSON/JavaScript runtime values.  `nan` is the IEEE NaN; it is never
produced by JSON parsing but can be produced by the scoring arithmetic. -/
inductive JVal where
  | null
  | nan
  | bool (b : Bool)
  | num (q : ℚ)
  | str (s : String)
  | arr (items : List JVal)
  | obj (fields : List (String × JVal))

def jsTruthy : JVal → Bool
  | .null => false
  | .nan => false
  | .bool b => b
  | .num q => decide (q ≠ 0)
  | .str s => decide (s ≠ "")
  | .arr _ => true
  | .obj _ => true

def truthyO : Option JVal → Bool
  | some v => jsTruthy v
  | none => false

def notNull : JVal → Bool
  | .null => false
  | _ => true

def lookupField : List (String × JVal) → String → Option JVal
  | [], _ => none
  | (k, v) :: rest, key => if k = key then some v else lookupField rest key

/-- property read `v[key]` for a non-null receiver (JavaScript objects and
the index/length properties of arrays and strings). -/
def jvGet : JVal → String → Option JVal
  | .obj fs, key => lookupField fs key
  | .arr xs, key =>
    if key = "length" then some (.num xs.length)
    else
      match parseIndex key with
      | some i => xs.get? i
      | none => none
  | .str s, key =>
    if key = "length" then some (.num s.length)
    else
      match parseIndex key with
      | some i => (s.data.get? i).map (fun c => .str (String.mk [c]))
      | none => none
  | _, _ => none

/-- property read modelling JavaScript `base.key`: throws a TypeError when
the receiver is `undefined` (here `none`) or `null`. -/
def accessE : Option JVal → String → Except Unit (Option JVal)
  | none, _ => .error ()
  | some .null, _ => .error ()
  | some v, key => .ok (jvGet v key)

/-- `Object.keys` for a non-null receiver. -/
def jvKeys : JVal → List String
  | .obj fs => fs.map Prod.fst
  | .arr xs => (List.range xs.length).map Nat.repr
  | .str s => (List.range s.length).map Nat.repr
  | _ => []

/-- object spread `\x7b...v\x7d`; primitives spread to nothing, arrays and
strings to their indexed entries. -/
def spreadFields : JVal → List (String × JVal)
  | .obj fs => fs
  | .arr xs => xs.enum.map (fun p => (Nat.repr p.fst, p.snd))
  | .str s => s.data.enum.map (fun p => (Nat.repr p.fst, .str (String.mk [p.snd])))
  | _ => []

/-- the SameValueZero equality used by JavaScript `Set` membership.  Two
separately parsed objects or arrays are distinct references, hence never
equal; `NaN` equals `NaN`. -/
def sameValueZero : JVal → JVal → Bool
  | .null, .null => true
  | .nan, .nan => true
  | .bool a, .bool b => a == b
  | .num a, .num b => a == b
  | .str a, .str b => a == b
  | _, _ => false

def svzO : Option JVal → Option JVal → Bool
  | none, none => true
  | some a, some b => sameValueZero a b
  | _, _ => false

/-- JavaScript strict equality `===` on the operand shapes reachable in
`calculateEntityMatchScore` (at least one operand not an object/array;
distinct references compare unequal, `NaN === NaN` is false). -/
def strictEq : JVal → JVal → Bool
  | .null, .null => true
  | .bool a, .bool b => a == b
  | .num a, .num b => a == b
  | .str a, .str b => a == b
  | _, _ => false

def isObjectType : JVal → Bool
  | .arr _ => true
  | .obj _ => true
  | _ => false

/-- JavaScript `a || d` on a property-read result. -/
def jsOr (a : Option JVal) (d : JVal) : JVal :=
  match a with
  | some w => if jsTruthy w then w else d
  | none => d

def jsOr2 (a b : Option JVal) (d : JVal) : JVal := jsOr a (jsOr b d)

def jsOr3 (a b c : Option JVal) (d : JVal) : JVal := jsOr a (jsOr2 b c d)

/-- an object-literal entry whose value may be `undefined`; such entries are
modelled as absent. -/
def optField (key : String) (v : Option JVal) : List (String × JVal) :=
  match v with
  | some w => [(key, w)]
  | none => []

/-! ### JavaScript numbers -/

/-- a JavaScript number; `none` is NaN. -/
abbrev JNum := Option ℚ

def nAdd : JNum → JNum → JNum
  | some a, some b => some (a + b)
  | _, _ => none

def nMin : JNum → JNum → JNum
  | some a, some b => some (min a b)
  | _, _ => none

def nDivC (x : JNum) (c : ℚ) : JNum :=
  match x with
  | some a => some (a / c)
  | none => none

/-- `Math.round` (round half toward positive infinity). -/
def jsRound (q : ℚ) : ℤ := ⌊q + 1 / 2⌋

def nRound : JNum → JNum
  | some q => some ((jsRound q : ℤ) : ℚ)
  | none => none

/-- `c < x` as JavaScript `x > c`; false when `x` is NaN. -/
def nGt (x : JNum) (c : ℚ) : Bool :=
  match x with
  | some q => decide (c < q)
  | none => false

/-- numeric coercion of a property-read result: `undefined` is NaN, `null`
is 0, booleans are 0/1.  String/array/object coercion is modelled as NaN;
no verified code path below performs arithmetic on such values. -/
def toNum : Option JVal → JNum
  | some (.num q) => some q
  | some .null => some 0
  | some (.bool b) => some (if b then 1 else 0)
  | _ => none

def jnumToJV : JNum → JVal
  | some q => .num q
  | none => .nan

/-! ### Retry/backoff controller (`geminiService.ts` 37-59) -/

/-- the transient-failure test `error.message.includes('rate limit') ||
error.message.includes('timeout')`. -/
def transientError (msg : String) : Bool :=
  strIncludes msg "rate limit" || strIncludes msg "timeout"

/-- observable behaviour of one `withRetry` run: final outcome, number of
invocations of the wrapped operation, and the sequence of back-off sleeps. -/
structure RetryTrace (α : Type) where
  result : Except String α
  calls : Nat
  sleeps : List Nat

/-- the `while (true)` loop of `withRetry`; `op n` is the outcome of the
`n`-th invocation of the wrapped operation (errors carry their message). -/
def withRetryGo (op : Nat → Except String α) (attempt retries delay : Nat)
    (sleeps : List Nat) : RetryTrace α :=
  match op attempt with
  | .ok a => ⟨.ok a, attempt + 1, sleeps⟩
  | .error e =>
    if h : retries + 1 > 3 || !(transientError e) then
      ⟨.error e, attempt + 1, sleeps⟩
    else
      withRetryGo op (attempt + 1) (retries + 1) (min (delay * 2) 8000)
        (sleeps ++ [delay])
termination_by 4 - retries
decreasing_by
  simp only [Bool.or_eq_true, Bool.not_eq_eq_eq_not, Bool.not_true, decide_eq_true_eq,
    not_or, not_lt] at h
  omega

/-- `withRetry` (geminiService.ts 37-59): maxRetries 3, initial delay 1000ms,
delay doubling capped at 8000ms. -/
def withRetry (op : Nat → Except String α) : RetryTrace α :=
  withRetryGo op 0 0 1000 []

/-! ### Confidence scorer (`geminiService.ts` 67-254) -/

/-- the per-agent step of `calculateConfidenceScores` (lines 76-96).  The
error case models the TypeError thrown by `agent.name.replace(...)` when
`name` is not a string. -/
def scoreAgent (systemDescription : String) (agent : JVal) : Except Unit JVal := do
  let descr ← accessE (some agent) "description"
  let detailScore : JNum ←
    if truthyO descr then do
      let len ← accessE descr "length"
      pure (nMin (some 15) (nDivC (toNum len) 20))
    else pure (some 0)
  let nameV ← accessE (some agent) "name"
  let nm ←
    match nameV with
    | some (.str s) => Except.ok s
    | _ => Except.error ()
  let mentionScore : JNum := nMin (some 10) (some ((countOccur nm systemDescription : ℚ) * 2))
  let roleV ← accessE (some agent) "role"
  let roleScore : ℚ ←
    if truthyO roleV then do
      let rl ← accessE roleV "length"
      pure (if nGt (toNum rl) 10 then (10 : ℚ) else 0)
    else pure 0
  let confidence : JNum :=
    nMin (some 100) (nRound (nAdd (some 70) (nAdd detailScore (nAdd mentionScore (some roleScore)))))
  pure (.obj (("confidence", jnumToJV confidence) :: spreadFields agent))

/-- the per-tool step of `calculateConfidenceScores` (lines 101-118).  The
first error case models `tool.name.length` on a null/undefined name, the
second models `tool.name.toLowerCase()` on a non-string name. -/
def scoreTool (systemDescription : String) (tool : JVal) : Except Unit JVal := do
  let nameV ← accessE (some tool) "name"
  let nameLen ← accessE nameV "length"
  let specificityScore : ℚ := if nGt (toNum nameLen) 3 then 10 else 0
  let purposeV ← accessE (some tool) "purpose"
  let purposeScore : ℚ ←
    if truthyO purposeV then do
      let pl ← accessE purposeV "length"
      pure (if nGt (toNum pl) 15 then (15 : ℚ) else 0)
    else pure 0
  let nm ←
    match nameV with
    | some (.str s) => Except.ok s
    | _ => Except.error ()
  let explicitScore : ℚ := if strIncludes (lowerStr systemDescription) (lowerStr nm) then 15 else 0
  let confidence : ℤ := min 100 (jsRound (70 + specificityScore + purposeScore + explicitScore))
  pure (.obj (("confidence", .num (confidence : ℚ)) :: spreadFields tool))

/-- the per-relationship step of `calculateConfidenceScores` (lines 123-139). -/
def scoreRelationship (rel : JVal) : Except Unit JVal := do
  let d ← accessE (some rel) "description"
  let clarityScore : ℚ ←
    if truthyO d then do
      let dl ← accessE d "length"
      pure (if nGt (toNum dl) 20 then (15 : ℚ) else 0)
    else pure 0
  let s ← accessE (some rel) "source"
  let t ← accessE (some rel) "target"
  let sourceTargetScore : ℚ := if truthyO s && truthyO t then 15 else 0
  let df ← accessE (some rel) "dataFlow"
  let dataFlowScore : ℚ := if truthyO df then 10 else 0
  let confidence : ℤ := min 100 (jsRound (70 + clarityScore + sourceTargetScore + dataFlowScore))
  pure (.obj (("confidence", .num (confidence : ℚ)) :: spreadFields rel))

def setField (fs : List (String × JVal)) (key : String) (v : JVal) : List (String × JVal) :=
  fs.map (fun kv => if kv.fst = key then (key, v) else kv)

/-- `if (result.key) result.key = result.key.map(score)`: skipped when the
field is absent or falsy, a TypeError when it is truthy but not an array. -/
def mapEntityList (score : JVal → Except Unit JVal) (fs : List (String × JVal))
    (key : String) : Except Unit (List (String × JVal)) :=
  match lookupField fs key with
  | some v =>
    if jsTruthy v then
      match v with
      | .arr l => do
        let scored ← l.mapM score
        pure (setField fs key (.arr scored))
      | _ => Except.error ()
    else pure fs
  | none => pure fs

/-- `a.confidence || 0` coerced to a number, as summed by
`calculateOverallConfidence`. -/
def confidenceOf (a : JVal) : Except Unit JNum := do
  let c ← accessE (some a) "confidence"
  pure (if truthyO c then toNum c else some (0 : ℚ))

/-- `a.name` as read by `assessConsistency`. -/
def nameOf (a : JVal) : Except Unit (Option JVal) := accessE (some a) "name"

/-- `rel.source` and `rel.target` as read by `assessConsistency`. -/
def endpointsOf (r : JVal) : Except Unit (Option JVal × Option JVal) := do
  let s ← accessE (some r) "source"
  let t ← accessE (some r) "target"
  pure (s, t)

/-- `calculateOverallConfidence` (geminiService.ts 159-185). -/
def calculateOverallConfidence (components : JVal) (systemDescription : String) :
    Except Unit JNum := do
  let base : ℚ := 65 + min 10 ((systemDescription.length : ℚ) / 200)
  let agentsV ← accessE (some components) "agents"
  let agentsLen ← if truthyO agentsV then accessE agentsV "length" else pure none
  let agentTerm : JNum ←
    if truthyO agentsV && nGt (toNum agentsLen) 0 then
      match agentsV with
      | some (.arr agents) => do
        let agentScores ← agents.mapM confidenceOf
        let total := agentScores.foldl nAdd (some 0)
        pure (nMin (some 10) (nDivC (nDivC total agents.length) 10))
      | _ => Except.error ()
    else pure (some (-15))
  let toolsV ← accessE (some components) "tools"
  let toolsLen ← if truthyO toolsV then accessE toolsV "length" else pure none
  let toolTerm : ℚ := if truthyO toolsV && nGt (toNum toolsLen) 0 then 5 else 0
  let relsV ← accessE (some components) "relationships"
  let relsLen ← if truthyO relsV then accessE relsV "length" else pure none
  let relTerm : ℚ := if truthyO relsV && nGt (toNum relsLen) 0 then 10 else 0
  pure (nRound (nAdd (nAdd (nAdd (some base) agentTerm) (some toolTerm)) (some relTerm)))

/-- `assessCompleteness` (geminiService.ts 192-202). -/
def assessCompleteness (components : JVal) : Except Unit ℤ := do
  let agentsV ← accessE (some components) "agents"
  let agentsLen ← if truthyO agentsV then accessE agentsV "length" else pure none
  let s1 : ℚ := 50 + (if truthyO agentsV && nGt (toNum agentsLen) 0 then 15 else 0)
  let toolsV ← accessE (some components) "tools"
  let toolsLen ← if truthyO toolsV then accessE toolsV "length" else pure none
  let s2 : ℚ := s1 + (if truthyO toolsV && nGt (toNum toolsLen) 0 then 10 else 0)
  let relsV ← accessE (some components) "relationships"
  let relsLen ← if truthyO relsV then accessE relsV "length" else pure none
  let s3 : ℚ := s2 + (if truthyO relsV && nGt (toNum relsLen) 0 then 15 else 0)
  let orchV ← accessE (some components) "orchestrationPattern"
  let s4 : ℚ := s3 + (if truthyO orchV then 10 else 0)
  pure (jsRound s4)

/-- `assessConsistency` (geminiService.ts 209-231).  The error case models
`.map`/`.forEach` on truthy non-arrays and property access on null entries. -/
def assessConsistency (components : JVal) : Except Unit ℤ := do
  let relsV ← accessE (some components) "relationships"
  let agentsV ← accessE (some components) "agents"
  if truthyO relsV && truthyO agentsV then
    match agentsV, relsV with
    | some (.arr agents), some (.arr rels) => do
      let agentNames ← agents.mapM nameOf
      let pairs ← rels.mapM endpointsOf
      let totalRelations := rels.length
      let validRelations := (pairs.filter (fun p =>
        agentNames.any (fun n => svzO n p.fst) && agentNames.any (fun n => svzO n p.snd))).length
      let score : ℚ :=
        70 + (if 0 < totalRelations then
          ((jsRound (20 * ((validRelations : ℚ) / totalRelations)) : ℤ) : ℚ) else 0)
      pure (jsRound score)
    | _, _ => Except.error ()
  else pure (jsRound 70)

/-- `assessClarity` (geminiService.ts 238-254). -/
def assessClarity (systemDescription : String) : ℤ :=
  let s1 : ℚ := 60 + (if hasHeading systemDescription.data then 15 else 0)
  let s2 : ℚ := s1 + min 10 ((systemDescription.length : ℚ) / 300)
  let s3 : ℚ := s2 +
    (if strIncludes systemDescription "example" || strIncludes systemDescription "for instance"
     then 10 else 0)
  jsRound s3

/-- the `systemConfidence` record attached by `calculateConfidenceScores`. -/
structure SystemConfidence where
  overall : JNum
  completeness : ℤ
  consistency : ℤ
  clarity : ℤ

/-- `calculateConfidenceScores` (geminiService.ts 67-151).  The scored
components and the systemConfidence metrics are returned as a pair rather
than re-injecting the metrics as a JSON field. -/
def calculateConfidenceScores (components : JVal) (systemDescription : String) :
    Except Unit (JVal × SystemConfidence) := do
  let fields0 := spreadFields components
  let fields1 ← mapEntityList (scoreAgent systemDescription) fields0 "agents"
  let fields2 ← mapEntityList (scoreTool systemDescription) fields1 "tools"
  let fields3 ← mapEntityList scoreRelationship fields2 "relationships"
  let result := JVal.obj fields3
  let pre ← calculateOverallConfidence result systemDescription
  let comp ← assessCompleteness result
  let cons ← assessConsistency result
  let clar := assessClarity systemDescription
  pure (result, ⟨nMin (some 95) pre, comp, cons, clar⟩)

/-! ### Well-formedness predicates used in the theorems below -/

def nameIsStr (v : JVal) : Bool :=
  match jvGet v "name" with
  | some (.str _) => true
  | _ => false

/-- a components field that the scorer can traverse: absent, falsy, or an
array whose entries all satisfy `p`. -/
def fieldOk (fs : List (String × JVal)) (key : String) (p : JVal → Bool) : Bool :=
  match lookupField fs key with
  | some v =>
    if jsTruthy v then
      match v with
      | .arr l => l.all p
      | _ => false
    else true
  | none => true

/-- inputs on which the confidence scorer cannot throw: every agent and every
tool is non-null and carries a string name, every relationship is non-null. -/
def componentsOk (c : JVal) : Bool :=
  fieldOk (spreadFields c) "agents" (fun a => notNull a && nameIsStr a) &&
  fieldOk (spreadFields c) "tools" (fun t => notNull t && nameIsStr t) &&
  fieldOk (spreadFields c) "relationships" notNull

/-- an agent of the documented data model: an object with a string `name`,
a string `role`, and a `description` that is absent or a string. -/
def agentTyped : JVal → Bool
  | .obj fs =>
    (match lookupField fs "name" with | some (.str _) => true | _ => false) &&
    (match lookupField fs "role" with | some (.str _) => true | _ => false) &&
    (match lookupField fs "description" with
     | some (.str _) => true
     | none => true
     | _ => false)
  | _ => false

/-- a tool of the documented data model, as far as scoring is concerned. -/
def toolTyped : JVal → Bool
  | .obj fs =>
    (match lookupField fs "name" with | some (.str _) => true | _ => false) &&
    (match lookupField fs "purpose" with
     | some (.str _) => true
     | none => true
     | _ => false)
  | _ => false

/-! ### Entity-match evaluator (`promptTestingService.ts` 255-345) -/

/-- `calculateStringSimilarity` (promptTestingService.ts 333-345): word-level
Jaccard similarity over `split(/\s+/)` word sets. -/
def calculateStringSimilarity (str1 str2 : String) : ℚ :=
  if str1 = str2 then 1
  else if str1.length = 0 || str2.length = 0 then 0
  else
    let words1 := dedupFirst (jsSplitWs str1)
    let words2 := dedupFirst (jsSplitWs str2)
    let inter := words1.filter (fun w => words2.contains w)
    let union := dedupFirst (words1 ++ words2)
    (inter.length : ℚ) / union.length

/-- the array branch of `calculateEntityMatchScore`: overlap count over the
larger length.  JavaScript yields NaN when both arrays are empty (0/0). -/
def arrOverlap (ax ex : List JVal) : JNum :=
  if max ex.length ax.length = 0 then none
  else some (((ax.filter (fun item => ex.any (fun e => sameValueZero e item))).length : ℚ) /
    (max ex.length ax.length))

/-- iteration order of `new Set([...Object.keys(actual), ...Object.keys(expected)])`. -/
def entityKeys (actual expected : JVal) : List String :=
  dedupFirst (jvKeys actual ++ jvKeys expected)

mutual

/-- `calculateEntityMatchScore` (promptTestingService.ts 289-325).  The error
case models `Object.keys` throwing on `null`; recursive calls are guarded by
the source's `!== null` checks and can never reach it.  The fuel passed by
`calculateEntityMatchScore` dominates the recursion depth, so exhaustion is
unreachable. -/
def matchScoreF : Nat → JVal → JVal → Except Unit JNum
  | _, .null, _ => Except.error ()
  | _, _, .null => Except.error ()
  | 0, _, _ => Except.ok (some 0)
  | fuel + 1, actual, expected => do
    let acc ← (entityKeys actual expected).foldlM (keyStep fuel actual expected) (some 0, 0)
    Except.ok (if 0 < acc.snd then nDivC acc.fst acc.snd else some 0)

/-- one key of the `matchingKeys` loop of `calculateEntityMatchScore`
(lines 296-321): skip keys absent from `expected`, count keys missing in
`actual` toward the denominator, otherwise add the key's contribution. -/
def keyStep (fuel : Nat) (actual expected : JVal) (acc : JNum × Nat) (key : String) :
    Except Unit (JNum × Nat) :=
  match jvGet expected key with
  | none => Except.ok acc
  | some ev =>
    match jvGet actual key with
    | none => Except.ok (acc.fst, acc.snd + 1)
    | some av => do
      let contrib ← keyContribF fuel av ev
      Except.ok (nAdd acc.fst contrib, acc.snd + 1)

/-- the per-key dispatch of `calculateEntityMatchScore` (lines 300-319):
array overlap, recursive object match, strict equality, gated string
similarity, else no contribution. -/
def keyContribF : Nat → JVal → JVal → Except Unit JNum
  | fuel, av, ev =>
    match ev, av with
    | .arr ex, .arr ax => Except.ok (arrOverlap ax ex)
    | _, _ =>
      if isObjectType ev && isObjectType av then
        matchScoreF fuel av ev
      else if strictEq ev av then Except.ok (some 1)
      else
        match ev, av with
        | .str es, .str as2 =>
          let sim := calculateStringSimilarity (lowerStr es) (lowerStr as2)
          Except.ok (some (if (7/10 : ℚ) < sim then sim else 0))
        | _, _ => Except.ok (some 0)

end

mutual

def jvSize : JVal → Nat
  | .arr xs => 1 + jvSizeList xs
  | .obj fs => 1 + jvSizeFields fs
  | _ => 1

def jvSizeList : List JVal → Nat
  | [] => 0
  | v :: t => jvSize v + jvSizeList t

def jvSizeFields : List (String × JVal) → Nat
  | [] => 0
  | kv :: t => jvSize kv.snd + jvSizeFields t

end

/-- `calculateEntityMatchScore` at a fuel that dominates its recursion depth. -/
def calculateEntityMatchScore (actual expected : JVal) : Except Unit JNum :=
  matchScoreF (jvSize actual + jvSize expected) actual expected

/-- the inner loop of `calculateEntityAccuracy`: the running best match
score for one expected entity, replaced whenever a strictly greater score
is seen (NaN comparisons are false). -/
def bestMatchFold (expectedEntity : JVal) : List JVal → ℚ → Except Unit ℚ
  | [], best => Except.ok best
  | actualEntity :: rest, best => do
    let ms ← calculateEntityMatchScore actualEntity expectedEntity
    bestMatchFold expectedEntity rest
      (match ms with
        | some q => if best < q then q else best
        | none => best)

/-- the outer loop of `calculateEntityAccuracy`: `matchCount` accumulation. -/
def accSum (actual : List JVal) : List JVal → ℚ → Except Unit ℚ
  | [], acc => Except.ok acc
  | expectedEntity :: rest, acc => do
    let best ← bestMatchFold expectedEntity actual 0
    accSum actual rest (acc + best)

/-- `calculateEntityAccuracy` (promptTestingService.ts 255-281). -/
def calculateEntityAccuracy (actual expected : List JVal) : Except Unit ℚ :=
  if expected.length = 0 then Except.ok (if actual.length = 0 then 1 else 0)
  else if actual.length = 0 then Except.ok 0
  else do
    let matchCount ← accSum actual expected 0
    Except.ok (matchCount / expected.length)

/-- Modelled from the spec (§4.5): the maximum match score of one expected
entity over all actual entities (NaN scores are not maxima). -/
def specBest (expectedEntity : JVal) (actual : List JVal) : Except Unit ℚ := do
  let scores ← actual.mapM (fun a => calculateEntityMatchScore a expectedEntity)
  Except.ok (scores.foldl (fun best ms =>
    match ms with
    | some q => max best q
    | none => best) (0 : ℚ))

/-- Modelled from the spec (§4.5): per expected entity, the maximum match
score over all actual entities (greedy, an actual entity may be reused),
summed and divided by the number of expected entities. -/
def specEntityAccuracy (actual expected : List JVal) : Except Unit ℚ :=
  if expected.length = 0 then Except.ok (if actual.length = 0 then 1 else 0)
  else if actual.length = 0 then Except.ok 0
  else do
    let bests ← expected.mapM (fun e => specBest e actual)
    Except.ok (bests.sum / expected.length)

/-! ### Structural normalizer (`geminiService.ts` 1520-1607) -/

structure DiagramNode where
  id : JVal
  label : JVal
  type : JVal
  role : Option JVal
  category : Option JVal
  description : Option JVal
  size : Option JVal
  style : Option JVal

structure DiagramEdge where
  id : JVal
  source : JVal
  target : JVal
  label : JVal
  type : JVal
  style : Option JVal

structure DiagramGroup where
  id : JVal
  label : JVal
  nodes : JVal
  style : Option JVal

structure DiagramData where
  nodes : List DiagramNode
  edges : List DiagramEdge
  layout : JVal
  groups : Option (List DiagramGroup)

/-- the typed `Agent` input of `generateSystemDiagram`. -/
structure InputAgent where
  id : String
  name : String
  description : Option String

/-- node normalization (geminiService.ts 1530-1542). -/
def mkNode (i : Nat) (node : JVal) : Except Unit DiagramNode := do
  let idV ← accessE (some node) "id"
  let labelV ← accessE (some node) "label"
  let nameV ← accessE (some node) "name"
  let typeV ← accessE (some node) "type"
  let roleV ← accessE (some node) "role"
  let categoryV ← accessE (some node) "category"
  let descV ← accessE (some node) "description"
  let sizeV ← accessE (some node) "size"
  let styleV ← accessE (some node) "style"
  let shapeV ← accessE (some node) "shape"
  let colorV ← accessE (some node) "color"
  pure
    { id := jsOr idV (.str ("node" ++ Nat.repr i))
      label := jsOr2 labelV nameV (.str ("Node " ++ Nat.repr i))
      type := jsOr typeV (.str "agent")
      role := roleV
      category := categoryV
      description := descV
      size := some (jsOr sizeV (.num 1))
      style := some (jsOr styleV (.obj (optField "shape" shapeV ++ optField "color" colorV))) }

/-- edge normalization (geminiService.ts 1562-1574). -/
def mkEdge (i : Nat) (edge : JVal) : Except Unit DiagramEdge := do
  let idV ← accessE (some edge) "id"
  let sourceV ← accessE (some edge) "source"
  let fromV ← accessE (some edge) "from"
  let sourceIdV ← accessE (some edge) "source_id"
  let targetV ← accessE (some edge) "target"
  let toV ← accessE (some edge) "to"
  let targetIdV ← accessE (some edge) "target_id"
  let labelV ← accessE (some edge) "label"
  let typeV ← accessE (some edge) "type"
  let styleV ← accessE (some edge) "style"
  let lineStyleV ← accessE (some edge) "lineStyle"
  let thicknessV ← accessE (some edge) "thickness"
  let colorV ← accessE (some edge) "color"
  let bidirV ← accessE (some edge) "bidirectional"
  pure
    { id := jsOr idV (.str ("edge" ++ Nat.repr i))
      source := jsOr3 sourceV fromV sourceIdV (.str "")
      target := jsOr3 targetV toV targetIdV (.str "")
      label := jsOr labelV (.str "")
      type := jsOr typeV (.str "sequential")
      style := some (jsOr styleV (.obj (optField "lineStyle" lineStyleV ++
        optField "thickness" thicknessV ++ optField "color" colorV ++
        optField "bidirectional" bidirV))) }

/-- group normalization (geminiService.ts 1592-1599). -/
def mkGroup (i : Nat) (group : JVal) : Except Unit DiagramGroup := do
  let idV ← accessE (some group) "id"
  let labelV ← accessE (some group) "label"
  let nameV ← accessE (some group) "name"
  let nodesV ← accessE (some group) "nodes"
  let nodeIdsV ← accessE (some group) "nodeIds"
  let styleV ← accessE (some group) "style"
  let colorV ← accessE (some group) "color"
  pure
    { id := jsOr idV (.str ("group" ++ Nat.repr i))
      label := jsOr2 labelV nameV (.str ("Group " ++ Nat.repr i))
      nodes := jsOr2 nodesV nodeIdsV (.arr [])
      style := some (jsOr styleV (.obj (optField "color" colorV))) }

/-- the fallback node synthesized from an input agent (geminiService.ts 1546-1551). -/
def basicNode (a : InputAgent) : DiagramNode :=
  { id := .str a.id
    label := .str a.name
    type := .str "agent"
    role := none
    category := none
    description := a.description.map JVal.str
    size := none
    style := none }

def nodeIdContains (nodes : List DiagramNode) (v : JVal) : Bool :=
  nodes.any (fun n => sameValueZero n.id v)

def validEdge (nodes : List DiagramNode) (e : DiagramEdge) : Bool :=
  nodeIdContains nodes e.source && nodeIdContains nodes e.target

/-- node normalization with the input-agent fallback (geminiService.ts
1527-1556); the error is `Missing required nodes array in diagram data`. -/
def normNodes (j : JVal) (agents : List InputAgent) : Except Unit (List DiagramNode) := do
  let nodesV ← accessE (some j) "nodes"
  let verticesV ← accessE (some j) "vertices"
  let agentsV ← accessE (some j) "agents"
  let nodeData := jsOr3 nodesV verticesV agentsV (.arr [])
  match nodeData with
  | .arr (x :: xs) => (x :: xs).enum.mapM (fun p => mkNode p.fst p.snd)
  | _ =>
    let fallback := agents.map basicNode
    if fallback.length = 0 then Except.error () else pure fallback

/-- edge normalization and the edge-validity filter (geminiService.ts
1559-1588): edges whose source or target id is not among the normalized
node ids are dropped, non-array edge data yields no edges. -/
def normEdges (j : JVal) (nodes : List DiagramNode) : Except Unit (List DiagramEdge) := do
  let edgesV ← accessE (some j) "edges"
  let linksV ← accessE (some j) "links"
  let relsV ← accessE (some j) "relationships"
  let edgeData := jsOr3 edgesV linksV relsV (.arr [])
  match edgeData with
  | .arr l => do
    let es ← l.enum.mapM (fun p => mkEdge p.fst p.snd)
    pure (es.filter (validEdge nodes))
  | _ => pure []

def normGroups (j : JVal) : Except Unit (Option (List DiagramGroup)) := do
  let groupsV ← accessE (some j) "groups"
  match groupsV with
  | some (.arr l) => (l.enum.mapM (fun p => mkGroup p.fst p.snd)).map some
  | _ => pure none

/-- layout handling (geminiService.ts 1523 and 1603-1607). -/
def finalLayout (layout0 : JVal) (layoutV : Option JVal) : JVal :=
  match layoutV with
  | some (.str s) => if jsTrim s ≠ "" then .str s else layout0
  | _ => layout0

/-- the normalization stage of `generateSystemDiagram` (geminiService.ts
1520-1607), applied to the parsed JSON response. -/
def normalizeDiagram (j : JVal) (agents : List InputAgent) : Except Unit DiagramData := do
  let layoutV ← accessE (some j) "layout"
  let layout0 := jsOr layoutV (.str "dagre")
  let nodes ← normNodes j agents
  let edges ← normEdges j nodes
  let groups ← normGroups j
  pure { nodes := nodes, edges := edges, layout := finalLayout layout0 layoutV, groups := groups }

/-! ### Text extractor (`geminiService.ts` 1471-1515) -/

inductive ExtractionError where
  | noJsonFound
  | malformedJson

/-- first match of the lazy inline regex `(\x7b[\s\S]*?\x7d)`: the first
opening brace through the first closing brace after it. -/
def lazySpan (s : String) : Option String :=
  match charIdx lbrace s.data with
  | none => none
  | some i =>
    let tail := s.data.drop (i + 1)
    match charIdx rbrace tail with
    | none => none
    | some k => some (String.mk (lbrace :: tail.take (k + 1)))

/-- the spec claim's permissive span: first opening brace through the last
closing brace. -/
def greedySpan (s : String) : Option String :=
  match charIdx lbrace s.data with
  | none => none
  | some i =>
    match lastCharIdx rbrace s.data with
    | none => none
    | some k => if i < k then some (String.mk ((s.data.drop i).take (k - i + 1))) else none

def backtick3 : List Char := "```".data

def jsonTagChars : List Char := "json".data

/-- capture group of the fence regex (triple backticks, optional `json` tag,
greedy leading whitespace, lazy body up to the first closing fence with
trailing whitespace outside the group). -/
def fencedBlock (s : String) : Option String :=
  match subFind backtick3 s.data with
  | none => none
  | some i =>
    let afterOpen := s.data.drop (i + 3)
    let afterTag := if jsonTagChars.isPrefixOf afterOpen then afterOpen.drop 4 else afterOpen
    let content0 := afterTag.dropWhile isWsChar
    match subFind backtick3 content0 with
    | none => none
    | some k => some (String.mk (((content0.take k).reverse.dropWhile isWsChar).reverse))

/-- the JSON extraction stage of `generateSystemDiagram` (geminiService.ts
1471-1515), parameterized by the success predicate of `JSON.parse`.  Returns
the payload text that parsed, or the typed failure.  The fenced stage is
guarded by `codeBlockMatch && codeBlockMatch[1]` (line 1484): an empty
capture is falsy in JavaScript, so an empty fenced block falls through to
the inline lazy scan of the whole text. -/
def extractJson (parse : String → Bool) (text : String) : Except ExtractionError String :=
  let jsonTextE : Except ExtractionError String :=
    if startsWithChar (jsTrim text) lbrace && endsWithChar (jsTrim text) rbrace then
      Except.ok (jsTrim text)
    else
      match fencedBlock text with
      | some g =>
        if g = "" then
          match lazySpan text with
          | some m => Except.ok m
          | none => Except.error ExtractionError.noJsonFound
        else Except.ok (jsTrim g)
      | none =>
        match lazySpan text with
        | some m => Except.ok m
        | none => Except.error ExtractionError.noJsonFound
  match jsonTextE with
  | Except.error e => Except.error e
  | Except.ok jsonText =>
    if parse jsonText then Except.ok jsonText
    else
      match lazySpan jsonText with
      | some m2 =>
        if parse m2 then Except.ok m2 else Except.error ExtractionError.malformedJson
      | none => Except.error ExtractionError.malformedJson

/-- Modelled from the spec (§4.1, claim C1 as amended): candidate selection
in priority order — whole trimmed text when it is brace-delimited, else the
trimmed fenced-block interior when that interior is non-empty, else the lazy
first-brace-to-first-closing span of the whole text. -/
def selectCandidate (text : String) : Option String :=
  if startsWithChar (jsTrim text) lbrace && endsWithChar (jsTrim text) rbrace then
    some (jsTrim text)
  else
    match fencedBlock text with
    | some g => if g = "" then lazySpan text else some (jsTrim g)
    | none => lazySpan text

/-- Modelled from the spec (§4.1): exactly one fallback re-scan of the
extracted candidate with the stricter brace regex before failing. -/
def parseWithFallback (parse : String → Bool) (cand : String) : Except ExtractionError String :=
  if parse cand then Except.ok cand
  else
    match lazySpan cand with
    | some m => if parse m then Except.ok m else Except.error ExtractionError.malformedJson
    | none => Except.error ExtractionError.malformedJson

/-- Modelled from the spec (claim C1 as amended): staged extraction. -/
def specExtract (parse : String → Bool) (text : String) : Except ExtractionError String :=
  match selectCandidate text with
  | none => Except.error ExtractionError.noJsonFound
  | some cand => parseWithFallback parse cand

/-- Modelled from the spec (claim C1 as stated): the permissive span is the
first opening brace through the LAST closing brace. -/
def claimExtract (parse : String → Bool) (text : String) : Except ExtractionError String :=
  let cand :=
    if startsWithChar (jsTrim text) lbrace && endsWithChar (jsTrim text) rbrace then
      some (jsTrim text)
    else
      match fencedBlock text with
      | some g => some (jsTrim g)
      | none => greedySpan text
  match cand with
  | none => Except.error ExtractionError.noJsonFound
  | some c => parseWithFallback parse c

/-! ### JSON syntax checker (a model of `JSON.parse` success) -/

def isJsonWs (c : Char) : Bool :=
  c = ' ' || c = Char.ofNat 9 || c = Char.ofNat 10 || c = Char.ofNat 13

def skipJWs (cs : List Char) : List Char := cs.dropWhile isJsonWs

def isHexChar (c : Char) : Bool :=
  isDigitChar c || ('a' ≤ c && c ≤ 'f') || ('A' ≤ c && c ≤ 'F')

/-- consume a JSON string body after the opening quote, including escapes. -/
def pString : List Char → Option (List Char)
  | [] => none
  | c :: rest =>
    if c = dquote then some rest
    else if c = bslash then
      match rest with
      | [] => none
      | e :: r2 =>
        if e = 'u' then
          match r2 with
          | h1 :: h2 :: h3 :: h4 :: r3 =>
            if isHexChar h1 && isHexChar h2 && isHexChar h3 && isHexChar h4 then pString r3
            else none
          | _ => none
        else if e = dquote || e = bslash || e = '/' || e = 'b' || e = 'f' ||
            e = 'n' || e = 'r' || e = 't' then pString r2
        else none
    else pString rest

/-- consume one or more digits. -/
def pDigits : List Char → Option (List Char)
  | [] => none
  | c :: rest => if isDigitChar c then some (rest.dropWhile isDigitChar) else none

def pFrac : List Char → Option (List Char)
  | [] => some []
  | c :: r => if c = '.' then pDigits r else some (c :: r)

def pExp : List Char → Option (List Char)
  | [] => some []
  | c :: r =>
    if c = 'e' || c = 'E' then
      match r with
      | s :: r2 => if s = '+' || s = '-' then pDigits r2 else pDigits (s :: r2)
      | [] => none
    else some (c :: r)

/-- consume a JSON number. -/
def pNumber (cs : List Char) : Option (List Char) := do
  let cs1 :=
    match cs with
    | c :: r => if c = '-' then r else cs
    | [] => cs
  let cs2 ←
    match cs1 with
    | c :: rest =>
      if c = '0' then some rest
      else if isDigitChar c then some (rest.dropWhile isDigitChar)
      else none
    | [] => none
  let cs3 ← pFrac cs2
  pExp cs3

def jsonTrueTail : List Char := "rue".data

def jsonFalseTail : List Char := "alse".data

def jsonNullTail : List Char := "ull".data

mutual

/-- consume a JSON value.  Every recursive call decrements the fuel; the fuel
chosen in `jsonValid` dominates the total number of calls. -/
def pValue : Nat → List Char → Option (List Char)
  | 0, _ => none
  | fuel + 1, cs =>
    match skipJWs cs with
    | [] => none
    | c :: rest =>
      if c = dquote then pString rest
      else if c = lbrace then pObjBody fuel rest
      else if c = '[' then pArrBody fuel rest
      else if c = 't' then
        if jsonTrueTail.isPrefixOf rest then some (rest.drop 3) else none
      else if c = 'f' then
        if jsonFalseTail.isPrefixOf rest then some (rest.drop 4) else none
      else if c = 'n' then
        if jsonNullTail.isPrefixOf rest then some (rest.drop 3) else none
      else if c = '-' || isDigitChar c then pNumber (c :: rest)
      else none

/-- consume an object body after the opening brace. -/
def pObjBody : Nat → List Char → Option (List Char)
  | 0, _ => none
  | fuel + 1, cs =>
    match skipJWs cs with
    | [] => none
    | c :: rest =>
      if c = rbrace then some rest
      else if c = dquote then do
        let r1 ← pString rest
        let r2 ← pColonValue fuel r1
        pMembersRest fuel r2
      else none

/-- consume `: value` of an object member. -/
def pColonValue : Nat → List Char → Option (List Char)
  | 0, _ => none
  | fuel + 1, cs =>
    match skipJWs cs with
    | c :: r => if c = ':' then pValue fuel r else none
    | [] => none

/-- consume `, "key": value` repetitions and the closing brace. -/
def pMembersRest : Nat → List Char → Option (List Char)
  | 0, _ => none
  | fuel + 1, cs =>
    match skipJWs cs with
    | [] => none
    | c :: rest =>
      if c = rbrace then some rest
      else if c = ',' then
        match skipJWs rest with
        | q :: r2 =>
          if q = dquote then do
            let r3 ← pString r2
            let r4 ← pColonValue fuel r3
            pMembersRest fuel r4
          else none
        | [] => none
      else none

/-- consume an array body after the opening bracket. -/
def pArrBody : Nat → List Char → Option (List Char)
  | 0, _ => none
  | fuel + 1, cs =>
    match skipJWs cs with
    | [] => none
    | c :: rest =>
      if c = ']' then some rest
      else do
        let r1 ← pValue fuel (c :: rest)
        pElemsRest fuel r1

/-- consume `, value` repetitions and the closing bracket. -/
def pElemsRest : Nat → List Char → Option (List Char)
  | 0, _ => none
  | fuel + 1, cs =>
    match skipJWs cs with
    | [] => none
    | c :: rest =>
      if c = ']' then some rest
      else if c = ',' then do
        let r1 ← pValue fuel rest
        pElemsRest fuel r1
      else none

end

/-- whether `JSON.parse` succeeds on the text. -/
def jsonValid (s : String) : Bool :=
  match pValue (4 * s.length + 8) s.data with
  | some rest => (skipJWs rest).isEmpty
  | none => false

/-! ### Concrete inputs used by witnesses and counterexamples -/

/-- the diagram JSON of the claim C8 scenario. -/
def inputC8 : JVal :=
  .obj [("vertices", .arr [.obj [("id", .str "n1"), ("name", .str "X")]]),
        ("links", .arr [.obj [("from", .str "n1"), ("to", .str "n2")]])]

/-- a diagram JSON whose single edge references only known node ids. -/
def inputC2 : JVal :=
  .obj [("vertices", .arr [.obj [("id", .str "n1")]]),
        ("links", .arr [.obj [("from", .str "n1"), ("to", .str "n1")]])]

/-- an operation failing twice with a rate-limit error, then succeeding. -/
def opC5 : Nat → Except String Nat
  | 0 => Except.error "rate limit exceeded"
  | 1 => Except.error "rate limit exceeded"
  | _ => Except.ok 42

/-- an operation that always fails with a non-transient error. -/
def opC6 : Nat → Except String Nat := fun _ => Except.error "permission denied"

/-- raw model text on which the code and the claimed extraction policy
disagree: nested braces after prose. -/
def rawTextC1 : String := "see \x7b\"a\":\x7b\"b\":1\x7d\x7d end"

/-- a data-model-conformant agent used by witnesses. -/
def agentC3fs : List (String × JVal) :=
  [("name", .str "Planner"), ("role", .str "coordinates all subtasks"),
   ("description", .str "plans and delegates work to the other agents")]

def srcC3 : String := "The Planner talks to the Planner"

/-- a components object with empty entity arrays, used by the C4 witness. -/
def componentsC4 : JVal :=
  .obj [("agents", .arr []), ("tools", .arr []), ("relationships", .arr [])]

/-- the system confidence the scorer computes on `componentsC4` and "". -/
def scC4 : SystemConfidence := ⟨some 50, 50, 70, 60⟩

/-- a components object with empty entity arrays and an orchestration
pattern, used by the C10 witness. -/
def componentsC10 : JVal :=
  .obj [("agents", .arr []), ("tools", .arr []), ("relationships", .arr []),
        ("orchestrationPattern", .str "Sequential")]

/-- a well-formed components object with one agent, used by the C9 witness. -/
def componentsC9 : JVal :=
  .obj [("agents", .arr [.obj [("name", .str "Worker")]])]

/-! ### Helper lemmas -/

theorem except_bind_ok {ε α β : Type} {x : Except ε α} {f : α → Except ε β} {b : β}
    (h : x >>= f = Except.ok b) : ∃ a, x = Except.ok a ∧ f a = Except.ok b := by
  cases x with
  | error e => simp [Bind.bind, Except.bind] at h
  | ok a => exact ⟨a, rfl, by simpa [Bind.bind, Except.bind] using h⟩

theorem le_jsRound {a : ℤ} {q : ℚ} (h : (a : ℚ) ≤ q) : a ≤ jsRound q := by
  unfold jsRound
  rw [Int.le_floor]
  linarith

theorem jsRound_le {b : ℤ} {q : ℚ} (h : q ≤ (b : ℚ)) : jsRound q ≤ b := by
  unfold jsRound
  have h2 : q + 1 / 2 < ((b + 1 : ℤ) : ℚ) := by push_cast; linarith
  have h3 : ⌊q + 1 / 2⌋ < b + 1 := Int.floor_lt.mpr h2
  omega

theorem normEdges_valid {j : JVal} {nodes : List DiagramNode} {es : List DiagramEdge}
    (h : normEdges j nodes = Except.ok es) :
    ∀ e ∈ es, validEdge nodes e = true := by
  unfold normEdges at h
  obtain ⟨a1, _, h⟩ := except_bind_ok h
  obtain ⟨a2, _, h⟩ := except_bind_ok h
  obtain ⟨a3, _, h⟩ := except_bind_ok h
  cases hd : jsOr3 a1 a2 a3 (.arr []) with
  | arr l =>
    rw [hd] at h
    simp only at h
    obtain ⟨es2, _, h⟩ := except_bind_ok h
    simp only [pure, Except.pure, Except.ok.injEq] at h
    subst h
    intro e he
    exact (List.mem_filter.mp he).2
  | null => rw [hd] at h; simp only [pure, Except.pure, Except.ok.injEq] at h; subst h; simp
  | nan => rw [hd] at h; simp only [pure, Except.pure, Except.ok.injEq] at h; subst h; simp
  | bool b => rw [hd] at h; simp only [pure, Except.pure, Except.ok.injEq] at h; subst h; simp
  | num q => rw [hd] at h; simp only [pure, Except.pure, Except.ok.injEq] at h; subst h; simp
  | str s => rw [hd] at h; simp only [pure, Except.pure, Except.ok.injEq] at h; subst h; simp
  | obj fs => rw [hd] at h; simp only [pure, Except.pure, Except.ok.injEq] at h; subst h; simp

theorem bind_ok_red {ε α β : Type} (a : α) (f : α → Except ε β) :
    (Except.ok a >>= f) = f a := rfl

theorem bind_err_red {ε α β : Type} (e : ε) (f : α → Except ε β) :
    ((Except.error e : Except ε α) >>= f) = Except.error e := rfl

theorem accessE_ok_of_truthy {v : Option JVal} (h : truthyO v = true) (k : String) :
    accessE v k = Except.ok (jvGet (v.getD .null) k) := by
  cases v with
  | none => simp [truthyO] at h
  | some w => cases w <;> simp_all [truthyO, jsTruthy, accessE]

theorem lenStep_ok (v : Option JVal) :
    ∃ r, (if truthyO v then accessE v "length" else pure none) = Except.ok r := by
  cases hv : truthyO v
  · exact ⟨none, by simp [hv]; rfl⟩
  · exact ⟨jvGet (v.getD .null) "length", by simp [hv, accessE_ok_of_truthy hv]⟩

theorem confVal (q : ℚ) :
    (if truthyO (some (.num q)) then toNum (some (.num q)) else some (0 : ℚ)) = some q := by
  by_cases hq : q = 0
  · subst hq; simp [truthyO, jsTruthy, toNum]
  · simp [truthyO, jsTruthy, toNum, hq]

theorem mapM_confs (agents : List JVal) (qs : List ℚ)
    (hq : agents.map (fun a => accessE (some a) "confidence") =
          qs.map (fun q => Except.ok (some (.num q)))) :
    agents.mapM confidenceOf = Except.ok (qs.map some) := by
  induction agents generalizing qs with
  | nil =>
    cases qs with
    | nil => rfl
    | cons q t => simp at hq
  | cons a t ih =>
    cases qs with
    | nil => simp at hq
    | cons q qt =>
      simp only [List.map_cons, List.cons.injEq] at hq
      obtain ⟨h1, h2⟩ := hq
      rw [List.mapM_cons, ih qt h2]
      simp only [confidenceOf, Bind.bind, Except.bind, h1, confVal, List.map_cons]
      rfl

theorem foldl_nAdd_some (qs : List ℚ) (a : ℚ) :
    (qs.map some).foldl nAdd (some a) = some (a + qs.sum) := by
  induction qs generalizing a with
  | nil => simp
  | cons q t ih =>
    simp only [List.map_cons, List.foldl_cons, nAdd, ih, List.sum_cons]
    rw [add_assoc]

theorem lookup_setField_ne (fs : List (String × JVal)) (k k2 : String) (v : JVal)
    (h : k2 ≠ k) : lookupField (setField fs k v) k2 = lookupField fs k2 := by
  induction fs with
  | nil => rfl
  | cons kv t ih =>
    obtain ⟨ka, va⟩ := kv
    by_cases hk : ka = k
    · subst hk
      rw [setField, List.map_cons, if_pos rfl]
      rw [lookupField, if_neg (fun hh => h hh.symm)]
      rw [lookupField, if_neg (fun hh => h hh.symm)]
      exact ih
    · rw [setField, List.map_cons, if_neg (by simpa using hk)]
      rw [lookupField, lookupField]
      by_cases hk2 : ka = k2
      · rw [if_pos hk2, if_pos hk2]
      · rw [if_neg hk2, if_neg hk2]
        exact ih

theorem lookup_setField_eq (fs : List (String × JVal)) (k : String) (v w : JVal)
    (h : lookupField fs k = some w) : lookupField (setField fs k v) k = some v := by
  induction fs with
  | nil => simp [lookupField] at h
  | cons kv t ih =>
    obtain ⟨ka, va⟩ := kv
    by_cases hk : ka = k
    · subst hk
      rw [setField, List.map_cons, if_pos rfl]
      rw [lookupField, if_pos rfl]
    · rw [lookupField, if_neg hk] at h
      rw [setField, List.map_cons, if_neg (by simpa using hk)]
      rw [lookupField, if_neg hk]
      exact ih h

theorem mapM_ok_of_forall {α β : Type} {f : α → Except Unit β} {P : β → Prop} :
    ∀ (l : List α), (∀ a ∈ l, ∃ b, f a = Except.ok b ∧ P b) →
      ∃ l2, l.mapM f = Except.ok l2 ∧ l2.length = l.length ∧ ∀ b ∈ l2, P b := by
  intro l
  induction l with
  | nil => intro _; exact ⟨[], rfl, rfl, by simp⟩
  | cons a t ih =>
    intro hall
    obtain ⟨b, hb, hPb⟩ := hall a (by simp)
    obtain ⟨l2, hl2, hlen, hP⟩ := ih (fun x hx => hall x (by simp [hx]))
    refine ⟨b :: l2, ?_, by simp [hlen], ?_⟩
    · rw [List.mapM_cons, hb, hl2]
      rfl
    · intro b2 hb2
      rcases List.mem_cons.mp hb2 with h | h
      · subst h; exact hPb
      · exact hP b2 h

theorem sum_bounds (qs : List ℚ) (h : ∀ q ∈ qs, 70 ≤ q ∧ q ≤ 100) :
    70 * qs.length ≤ qs.sum ∧ qs.sum ≤ 100 * qs.length := by
  induction qs with
  | nil => simp
  | cons q t ih =>
    obtain ⟨h1, h2⟩ := h q (by simp)
    obtain ⟨ih1, ih2⟩ := ih (fun x hx => h x (by simp [hx]))
    constructor
    · simp only [List.sum_cons, List.length_cons]
      push_cast
      linarith
    · simp only [List.sum_cons, List.length_cons]
      push_cast
      linarith

theorem nGt_len {α : Type} (l : List α) :
    nGt (toNum (some (JVal.num (l.length : ℚ)))) 0 = !l.isEmpty := by
  have hcast : ((0:ℚ) < ((l.length : ℕ) : ℚ)) ↔ 0 < l.length := by exact_mod_cast Iff.rfl
  have h1 : nGt (toNum (some (JVal.num (l.length : ℚ)))) 0 =
      decide ((0:ℚ) < (l.length : ℚ)) := rfl
  rw [h1, decide_eq_decide.mpr hcast]
  cases l with
  | nil => rfl
  | cons x xs =>
    have h : 0 < (x :: xs).length := by simp
    simp [h]

theorem calcOverall_eq (fs : List (String × JVal)) (src : String)
    (agents tools rels : List JVal) (qs : List ℚ)
    (ha : lookupField fs "agents" = some (.arr agents))
    (ht : lookupField fs "tools" = some (.arr tools))
    (hr : lookupField fs "relationships" = some (.arr rels))
    (hq : agents.map (fun a => accessE (some a) "confidence") =
          qs.map (fun q => Except.ok (some (.num q)))) :
    calculateOverallConfidence (.obj fs) src = Except.ok (some
      (((jsRound (65 + min 10 ((src.length : ℚ) / 200) +
        (if agents.isEmpty then (-15 : ℚ) else min 10 ((qs.sum / qs.length) / 10)) +
        (if tools.isEmpty then (0 : ℚ) else 5) +
        (if rels.isEmpty then (0 : ℚ) else 10))) : ℤ) : ℚ)) := by
  have hlen : agents.length = qs.length := by
    simpa using congrArg List.length hq
  rcases agents with _ | ⟨a0, arest⟩
  · cases qs with
    | cons q qt => simp at hq
    | nil =>
      rcases tools with _ | ⟨t0, ts⟩ <;> rcases rels with _ | ⟨r0, rs⟩ <;>
        (unfold calculateOverallConfidence
         simp only [accessE, jvGet, ha, ht, hr, bind_ok_red, eq_self_iff_true, if_true]
         simp only [truthyO, jsTruthy, Bool.true_and, nGt_len, List.isEmpty_nil,
           List.isEmpty_cons, Bool.not_true, Bool.not_false, Bool.false_eq_true,
           if_false, if_true, nAdd, nMin, nDivC, nRound, pure, Except.pure]
         try rfl)
  · have hq0 : qs.isEmpty = false := by
      cases qs with
      | nil => simp at hlen
      | cons q qt => rfl
    have hmap := mapM_confs (a0 :: arest) qs hq
    rcases tools with _ | ⟨t0, ts⟩ <;> rcases rels with _ | ⟨r0, rs⟩ <;>
      (unfold calculateOverallConfidence
       simp only [accessE, jvGet, ha, ht, hr, bind_ok_red, eq_self_iff_true, if_true]
       simp only [truthyO, jsTruthy, Bool.true_and, nGt_len, List.isEmpty_nil,
         List.isEmpty_cons, Bool.not_true, Bool.not_false, Bool.false_eq_true,
         if_false, if_true, hmap, bind_ok_red, foldl_nAdd_some, zero_add, hlen, hq0,
         nAdd, nMin, nDivC, nRound, pure, Except.pure]
       try rfl)

theorem ifmax (b q : ℚ) : (if b < q then q else b) = max b q := by
  rcases le_or_lt q b with h | h
  · rw [if_neg (not_lt.mpr h), max_eq_left h]
  · rw [if_pos h, max_eq_right (le_of_lt h)]

theorem bestMatchFold_eq_specBest (e : JVal) (l : List JVal) (b : ℚ) :
    bestMatchFold e l b =
      (l.mapM (fun a => calculateEntityMatchScore a e)).bind (fun scores =>
        Except.ok (scores.foldl (fun best ms =>
          match ms with
          | some q => max best q
          | none => best) b)) := by
  induction l generalizing b with
  | nil => rfl
  | cons a t ih =>
    rw [bestMatchFold, List.mapM_cons]
    cases hms : calculateEntityMatchScore a e with
    | error err => rfl
    | ok ms =>
      simp only [Bind.bind, Except.bind, ih]
      cases hm : t.mapM (fun a2 => calculateEntityMatchScore a2 e) with
      | error err => rfl
      | ok rest =>
        cases ms with
        | none => simp [pure, Except.pure, List.foldl_cons]
        | some q => simp [pure, Except.pure, List.foldl_cons, ifmax]

theorem accSum_eq_specSum (actual : List JVal) (l : List JVal) (acc : ℚ) :
    accSum actual l acc =
      (l.mapM (fun e => specBest e actual)).bind
        (fun bests => Except.ok (acc + bests.sum)) := by
  induction l generalizing acc with
  | nil =>
    rw [accSum, List.mapM_nil]
    simp [Except.bind, pure, Except.pure]
  | cons e t ih =>
    rw [accSum, List.mapM_cons]
    have hb : bestMatchFold e actual 0 = specBest e actual := by
      rw [bestMatchFold_eq_specBest]
      rfl
    rw [hb]
    cases hs : specBest e actual with
    | error err => rfl
    | ok best =>
      simp only [Bind.bind, Except.bind, ih]
      cases hm : t.mapM (fun e2 => specBest e2 actual) with
      | error err => rfl
      | ok rest => simp [pure, Except.pure, List.sum_cons, add_assoc]

/-- the per-agent confidence computed by `scoreAgent` on a data-model agent
equals the documented formula. -/
theorem scoreAgent_eq (fs : List (String × JVal)) (nm rl : String)
    (dOpt : Option String) (src : String)
    (hn : lookupField fs "name" = some (.str nm))
    (hr : lookupField fs "role" = some (.str rl))
    (hd : lookupField fs "description" = dOpt.map JVal.str) :
    scoreAgent src (.obj fs) = Except.ok (.obj (("confidence",
      .num ((min 100 (jsRound (70 + min 15 (((dOpt.getD "").length : ℚ) / 20) +
        min 10 (2 * (countOccur nm src : ℚ)) +
        (if 10 < rl.length then (10 : ℚ) else 0))) : ℤ) : ℚ)) :: fs)) := by
  unfold scoreAgent
  cases dOpt with
  | none =>
    by_cases hrl2 : rl = ""
    · subst hrl2
      simp [accessE, jvGet, hn, hr, hd, Bind.bind, Except.bind, truthyO, jsTruthy,
        nAdd, nMin, nRound, nDivC, toNum, nGt, jnumToJV, spreadFields, pure, Except.pure]
      push_cast
      norm_num
      ring_nf
    · simp [accessE, jvGet, hn, hr, hd, Bind.bind, Except.bind, truthyO, jsTruthy, hrl2,
        nAdd, nMin, nRound, nDivC, toNum, nGt, jnumToJV, spreadFields, pure, Except.pure]
      push_cast
      by_cases hlen : (10 : ℚ) < rl.length
      · have hlen2 : 10 < rl.length := by exact_mod_cast hlen
        simp only [hlen, if_true, hlen2]
        norm_num
        ring_nf
      · have hlen2 : ¬ 10 < rl.length := by exact_mod_cast hlen
        simp only [hlen, if_false, hlen2]
        norm_num
        ring_nf
  | some d =>
    by_cases hde : d = ""
    · subst hde
      by_cases hrl2 : rl = ""
      · subst hrl2
        simp [accessE, jvGet, hn, hr, hd, Bind.bind, Except.bind, truthyO, jsTruthy,
          nAdd, nMin, nRound, nDivC, toNum, nGt, jnumToJV, spreadFields, pure, Except.pure]
        push_cast
        norm_num
        ring_nf
      · simp [accessE, jvGet, hn, hr, hd, Bind.bind, Except.bind, truthyO, jsTruthy, hrl2,
          nAdd, nMin, nRound, nDivC, toNum, nGt, jnumToJV, spreadFields, pure, Except.pure]
        push_cast
        by_cases hlen : (10 : ℚ) < rl.length
        · have hlen2 : 10 < rl.length := by exact_mod_cast hlen
          simp only [hlen, if_true, hlen2]
          norm_num
          ring_nf
        · have hlen2 : ¬ 10 < rl.length := by exact_mod_cast hlen
          simp only [hlen, if_false, hlen2]
          norm_num
          ring_nf
    · by_cases hrl2 : rl = ""
      · subst hrl2
        simp [accessE, jvGet, hn, hr, hd, Bind.bind, Except.bind, truthyO, jsTruthy, hde,
          nAdd, nMin, nRound, nDivC, toNum, nGt, jnumToJV, spreadFields, pure, Except.pure]
        push_cast
        norm_num
        ring_nf
      · simp [accessE, jvGet, hn, hr, hd, Bind.bind, Except.bind, truthyO, jsTruthy, hde, hrl2,
          nAdd, nMin, nRound, nDivC, toNum, nGt, jnumToJV, spreadFields, pure, Except.pure]
        push_cast
        by_cases hlen : (10 : ℚ) < rl.length
        · have hlen2 : 10 < rl.length := by exact_mod_cast hlen
          simp only [hlen, if_true, hlen2]
          norm_num
          ring_nf
        · have hlen2 : ¬ 10 < rl.length := by exact_mod_cast hlen
          simp only [hlen, if_false, hlen2]
          norm_num
          ring_nf

theorem scorer_inv {c : JVal} {src : String} {scored : JVal} {sc : SystemConfidence}
    (h : calculateConfidenceScores c src = Except.ok (scored, sc)) :
    ∃ pre, calculateOverallConfidence scored src = Except.ok pre ∧
      sc.overall = nMin (some 95) pre := by
  unfold calculateConfidenceScores at h
  obtain ⟨f1, _, h⟩ := except_bind_ok h
  obtain ⟨f2, _, h⟩ := except_bind_ok h
  obtain ⟨f3, _, h⟩ := except_bind_ok h
  obtain ⟨pre, hpre, h⟩ := except_bind_ok h
  obtain ⟨comp, hcomp, h⟩ := except_bind_ok h
  obtain ⟨cons2, hcons, h⟩ := except_bind_ok h
  simp only [pure, Except.pure, Except.ok.injEq, Prod.mk.injEq] at h
  obtain ⟨hs, hsc⟩ := h
  subst hs
  subst hsc
  exact ⟨pre, hpre, rfl⟩

theorem matchStr_elim {v : Option JVal}
    (h : (match v with | some (.str _) => true | _ => false) = true) :
    ∃ s, v = some (.str s) := by
  rcases v with _ | w
  · simp at h
  · cases w with
    | str s => exact ⟨s, rfl⟩
    | null => simp at h
    | nan => simp at h
    | bool b => simp at h
    | num q => simp at h
    | arr l => simp at h
    | obj fs => simp at h

theorem matchDesc_elim {v : Option JVal}
    (h : (match v with | some (.str _) => true | none => true | _ => false) = true) :
    ∃ dOpt : Option String, v = dOpt.map JVal.str := by
  rcases v with _ | w
  · exact ⟨none, rfl⟩
  · cases w with
    | str s => exact ⟨some s, rfl⟩
    | null => simp at h
    | nan => simp at h
    | bool b => simp at h
    | num q => simp at h
    | arr l => simp at h
    | obj fs => simp at h

theorem accessE_notNull {t : JVal} (hn : notNull t = true) (k : String) :
    accessE (some t) k = Except.ok (jvGet t k) := by
  cases t <;> simp_all [notNull, accessE]

theorem accessE_str_length (s : String) :
    accessE (some (.str s)) "length" = Except.ok (some (.num (s.length : ℚ))) := rfl

theorem scoreAgent_bounds (src : String) (a : JVal) (h : agentTyped a = true) :
    ∃ z : ℤ, scoreAgent src a =
        Except.ok (.obj (("confidence", .num ((z : ℤ) : ℚ)) :: spreadFields a)) ∧
      70 ≤ z ∧ z ≤ 100 := by
  cases a with
  | null => simp [agentTyped] at h
  | nan => simp [agentTyped] at h
  | bool b => simp [agentTyped] at h
  | num q => simp [agentTyped] at h
  | str s => simp [agentTyped] at h
  | arr l => simp [agentTyped] at h
  | obj fs =>
    simp only [agentTyped, Bool.and_eq_true] at h
    obtain ⟨⟨h1, h2⟩, h3⟩ := h
    obtain ⟨nm, hn2⟩ := matchStr_elim h1
    obtain ⟨rl, hr2⟩ := matchStr_elim h2
    obtain ⟨dOpt, hd2⟩ := matchDesc_elim h3
    refine ⟨_, scoreAgent_eq fs nm rl dOpt src hn2 hr2 hd2, ?_, min_le_left _ _⟩
    apply le_min (by norm_num)
    apply le_jsRound
    have d1 : (0:ℚ) ≤ min 15 (((dOpt.getD "").length : ℚ) / 20) :=
      le_min (by norm_num) (by positivity)
    have d2 : (0:ℚ) ≤ min 10 (2 * (countOccur nm src : ℚ)) :=
      le_min (by norm_num) (by positivity)
    have d3 : (0:ℚ) ≤ (if 10 < rl.length then (10:ℚ) else 0) := by
      split_ifs <;> norm_num
    push_cast
    linarith

theorem scoreAgent_ok (src : String) (a : JVal) (hn : notNull a = true)
    (hs : nameIsStr a = true) :
    ∃ v : JVal, scoreAgent src a = Except.ok (.obj (("confidence", v) :: spreadFields a)) := by
  obtain ⟨nm, hnm⟩ := matchStr_elim (v := jvGet a "name") (by simpa [nameIsStr] using hs)
  unfold scoreAgent
  simp only [accessE_notNull hn, hnm, bind_ok_red]
  cases htd : truthyO (jvGet a "description") with
  | false =>
    simp only [htd, Bool.false_eq_true, if_false, pure, Except.pure, bind_ok_red]
    cases htr : truthyO (jvGet a "role") with
    | false =>
      simp only [htr, Bool.false_eq_true, if_false, pure, Except.pure, bind_ok_red]
      exact ⟨_, rfl⟩
    | true =>
      rw [accessE_ok_of_truthy htr]
      simp only [htr, if_true, pure, Except.pure, bind_ok_red]
      exact ⟨_, rfl⟩
  | true =>
    rw [accessE_ok_of_truthy htd]
    simp only [htd, if_true, pure, Except.pure, bind_ok_red]
    cases htr : truthyO (jvGet a "role") with
    | false =>
      simp only [htr, Bool.false_eq_true, if_false, pure, Except.pure, bind_ok_red]
      exact ⟨_, rfl⟩
    | true =>
      rw [accessE_ok_of_truthy htr]
      simp only [htr, if_true, pure, Except.pure, bind_ok_red]
      exact ⟨_, rfl⟩

theorem scoreTool_ok (src : String) (t : JVal) (hn : notNull t = true)
    (hs : nameIsStr t = true) :
    ∃ v : JVal, scoreTool src t = Except.ok (.obj (("confidence", v) :: spreadFields t)) := by
  obtain ⟨nm, hnm⟩ := matchStr_elim (v := jvGet t "name") (by simpa [nameIsStr] using hs)
  unfold scoreTool
  simp only [accessE_notNull hn, hnm, bind_ok_red]
  simp only [accessE_str_length, bind_ok_red]
  cases htp : truthyO (jvGet t "purpose") with
  | false =>
    simp only [htp, Bool.false_eq_true, if_false, pure, Except.pure, bind_ok_red]
    exact ⟨_, rfl⟩
  | true =>
    rw [accessE_ok_of_truthy htp]
    simp only [htp, if_true, pure, Except.pure, bind_ok_red]
    exact ⟨_, rfl⟩

theorem scoreRel_ok (r : JVal) (hn : notNull r = true) :
    ∃ v : JVal, scoreRelationship r = Except.ok (.obj (("confidence", v) :: spreadFields r)) := by
  unfold scoreRelationship
  simp only [accessE_notNull hn, bind_ok_red]
  cases htd : truthyO (jvGet r "description") with
  | false =>
    simp only [htd, Bool.false_eq_true, if_false, pure, Except.pure, bind_ok_red]
    exact ⟨_, rfl⟩
  | true =>
    rw [accessE_ok_of_truthy htd]
    simp only [htd, if_true, pure, Except.pure, bind_ok_red]
    exact ⟨_, rfl⟩

theorem assessClarity_bounds (src : String) :
    60 ≤ assessClarity src ∧ assessClarity src ≤ 95 := by
  simp only [assessClarity]
  have h1 : (0:ℚ) ≤ min 10 ((src.length : ℚ) / 300) := le_min (by norm_num) (by positivity)
  have h2 : min (10:ℚ) ((src.length : ℚ) / 300) ≤ 10 := min_le_left _ _
  constructor
  · apply le_jsRound
    split_ifs <;> push_cast <;> linarith
  · apply jsRound_le
    split_ifs <;> push_cast <;> linarith

theorem accessE_obj (fs : List (String × JVal)) (key : String) :
    accessE (some (.obj fs)) key = Except.ok (lookupField fs key) := rfl

theorem assessCompleteness_bounds (fs : List (String × JVal)) :
    ∃ z, assessCompleteness (.obj fs) = Except.ok z ∧ 50 ≤ z ∧ z ≤ 100 := by
  unfold assessCompleteness
  simp only [accessE_obj, bind_ok_red]
  cases hA : truthyO (lookupField fs "agents") <;>
  cases hT : truthyO (lookupField fs "tools") <;>
  cases hR : truthyO (lookupField fs "relationships") <;>
  simp only [hA, hT, hR, accessE_ok_of_truthy, Bool.false_eq_true, Bool.true_and,
    Bool.false_and, if_true, if_false, pure, Except.pure, bind_ok_red] <;>
  refine ⟨_, rfl, ?_, ?_⟩ <;>
  first
  | (apply le_jsRound
     split_ifs <;> push_cast <;> linarith)
  | (apply jsRound_le
     split_ifs <;> push_cast <;> linarith)

theorem mapEntityList_none {score : JVal → Except Unit JVal} {fs : List (String × JVal)}
    {key : String} (h : lookupField fs key = none) :
    mapEntityList score fs key = Except.ok fs := by
  unfold mapEntityList
  rw [h]
  rfl

theorem mapEntityList_falsy {score : JVal → Except Unit JVal} {fs : List (String × JVal)}
    {key : String} {v : JVal} (hl : lookupField fs key = some v)
    (hv : jsTruthy v = false) :
    mapEntityList score fs key = Except.ok fs := by
  unfold mapEntityList
  rw [hl]
  simp only [hv, Bool.false_eq_true, if_false, pure, Except.pure]

theorem mapEntityList_arr {score : JVal → Except Unit JVal} {fs : List (String × JVal)}
    {key : String} {l l2 : List JVal}
    (hl : lookupField fs key = some (.arr l))
    (hm : l.mapM score = Except.ok l2) :
    mapEntityList score fs key = Except.ok (setField fs key (.arr l2)) := by
  unfold mapEntityList
  rw [hl]
  simp only [jsTruthy, if_true, hm, bind_ok_red, pure, Except.pure]

theorem fieldOk_congr {fs2 fs : List (String × JVal)} {key : String} {p : JVal → Bool}
    (h : lookupField fs2 key = lookupField fs key) :
    fieldOk fs2 key p = fieldOk fs key p := by
  unfold fieldOk
  rw [h]

theorem mapEntityList_fieldOk {score : JVal → Except Unit JVal} {fs : List (String × JVal)}
    {key : String} {p : JVal → Bool}
    (hOk : fieldOk fs key p = true)
    (hscore : ∀ a, p a = true →
      ∃ v, score a = Except.ok (.obj (("confidence", v) :: spreadFields a))) :
    ∃ fs2, mapEntityList score fs key = Except.ok fs2 ∧
      (∀ k2, k2 ≠ key → lookupField fs2 k2 = lookupField fs k2) ∧
      fieldOk fs2 key notNull = true := by
  rcases hl : lookupField fs key with _ | v
  · refine ⟨fs, mapEntityList_none hl, fun k2 _ => rfl, ?_⟩
    simp [fieldOk, hl]
  · cases hv : jsTruthy v with
    | false =>
      refine ⟨fs, mapEntityList_falsy hl hv, fun k2 _ => rfl, ?_⟩
      simp [fieldOk, hl, hv]
    | true =>
      unfold fieldOk at hOk
      rw [hl] at hOk
      simp only [hv, if_true] at hOk
      cases v with
      | arr l =>
        have hall : ∀ a ∈ l, p a = true := by
          intro a ha
          exact List.all_eq_true.mp hOk a ha
        obtain ⟨l2, hm, hlen, hP⟩ := mapM_ok_of_forall (P := fun b => notNull b = true) l
          (fun a ha => by
            obtain ⟨v2, hv2⟩ := hscore a (hall a ha)
            exact ⟨_, hv2, rfl⟩)
        refine ⟨setField fs key (.arr l2), mapEntityList_arr hl hm,
          fun k2 hk2 => lookup_setField_ne fs key k2 _ hk2, ?_⟩
        unfold fieldOk
        rw [lookup_setField_eq fs key (.arr l2) _ hl]
        simp only [jsTruthy, if_true]
        exact List.all_eq_true.mpr hP
      | null => simp at hOk
      | nan => simp at hOk
      | bool b => simp at hOk
      | num q => simp at hOk
      | str s => simp at hOk
      | obj fs3 => simp at hOk

theorem fieldOk_arr {fs : List (String × JVal)} {key : String} {p : JVal → Bool} {v : JVal}
    (hOk : fieldOk fs key p = true) (hl : lookupField fs key = some v)
    (hv : jsTruthy v = true) :
    ∃ l, v = .arr l ∧ ∀ b ∈ l, p b = true := by
  unfold fieldOk at hOk
  rw [hl] at hOk
  simp only [hv, if_true] at hOk
  cases v with
  | arr l => exact ⟨l, rfl, fun b hb => List.all_eq_true.mp hOk b hb⟩
  | null => simp at hOk
  | nan => simp at hOk
  | bool b => simp at hOk
  | num q => simp at hOk
  | str s => simp at hOk
  | obj fs3 => simp at hOk

theorem assessConsistency_bounds (fs : List (String × JVal))
    (hA : fieldOk fs "agents" notNull = true)
    (hR : fieldOk fs "relationships" notNull = true) :
    ∃ z, assessConsistency (.obj fs) = Except.ok z ∧ 70 ≤ z ∧ z ≤ 90 := by
  unfold assessConsistency
  simp only [accessE_obj, bind_ok_red]
  cases hc : (truthyO (lookupField fs "relationships") && truthyO (lookupField fs "agents")) with
  | false =>
    simp only [Bool.false_eq_true, if_false, pure, Except.pure]
    refine ⟨_, rfl, ?_, ?_⟩
    · exact le_jsRound (by norm_num)
    · exact jsRound_le (by norm_num)
  | true =>
    have hc2 : truthyO (lookupField fs "relationships") = true ∧
        truthyO (lookupField fs "agents") = true := by
      simpa [Bool.and_eq_true] using hc
    obtain ⟨hrt, hat⟩ := hc2
    rcases hlr : lookupField fs "relationships" with _ | vr
    · rw [hlr] at hrt; simp [truthyO] at hrt
    rcases hla : lookupField fs "agents" with _ | va
    · rw [hla] at hat; simp [truthyO] at hat
    rw [hlr] at hrt
    rw [hla] at hat
    obtain ⟨rels, hvr, hallr⟩ := fieldOk_arr hR hlr hrt
    obtain ⟨agents, hva, halla⟩ := fieldOk_arr hA hla hat
    subst hvr hva
    obtain ⟨names, hnm, hnlen, _⟩ := mapM_ok_of_forall (f := nameOf)
      (P := fun _ => True) agents
      (fun a ha => ⟨_, accessE_notNull (halla a ha) "name", trivial⟩)
    obtain ⟨pairs, hpr, hplen, _⟩ := mapM_ok_of_forall (f := endpointsOf)
      (P := fun _ => True) rels
      (fun r2 hr2 => ⟨(jvGet r2 "source", jvGet r2 "target"), by
        unfold endpointsOf
        simp only [accessE_notNull (hallr r2 hr2), bind_ok_red]
        rfl, trivial⟩)
    simp only [eq_self_iff_true, if_true, hnm, bind_ok_red, hpr, pure, Except.pure]
    refine ⟨_, rfl, ?_, ?_⟩
    · apply le_jsRound
      split_ifs with hpos
      · push_cast
        have h0 : (0:ℚ) ≤ ((jsRound (20 * (((pairs.filter (fun p =>
            names.any (fun n => svzO n p.fst) && names.any (fun n => svzO n p.snd))).length : ℚ)
            / (rels.length : ℚ))) : ℤ) : ℚ) := by
          have := le_jsRound (a := 0) (q := 20 * (((pairs.filter (fun p =>
            names.any (fun n => svzO n p.fst) && names.any (fun n => svzO n p.snd))).length : ℚ)
            / (rels.length : ℚ))) (by positivity)
          exact_mod_cast this
        linarith
      · norm_num
    · apply jsRound_le
      split_ifs with hpos
      · have hfle : ((pairs.filter (fun p =>
            names.any (fun n => svzO n p.fst) && names.any (fun n => svzO n p.snd))).length : ℚ)
            / (rels.length : ℚ) ≤ 1 := by
          rw [div_le_one (by exact_mod_cast hpos)]
          have h1 : (pairs.filter (fun p =>
            names.any (fun n => svzO n p.fst) && names.any (fun n => svzO n p.snd))).length
            ≤ pairs.length := List.length_filter_le _ _
          have h2 : pairs.length = rels.length := hplen
          exact_mod_cast h2 ▸ h1
        have h20 : ((jsRound (20 * (((pairs.filter (fun p =>
            names.any (fun n => svzO n p.fst) && names.any (fun n => svzO n p.snd))).length : ℚ)
            / (rels.length : ℚ))) : ℤ) : ℚ) ≤ 20 := by
          have := jsRound_le (b := 20) (q := 20 * (((pairs.filter (fun p =>
            names.any (fun n => svzO n p.fst) && names.any (fun n => svzO n p.snd))).length : ℚ)
            / (rels.length : ℚ))) (by linarith)
          exact_mod_cast this
        linarith
      · norm_num

theorem accessE_arr_length (l : List JVal) :
    accessE (some (.arr l)) "length" = Except.ok (some (.num (l.length : ℚ))) := rfl

theorem truthyO_none : truthyO none = false := rfl

theorem truthyO_some (v : JVal) : truthyO (some v) = jsTruthy v := rfl

theorem calcOverall_ok (fs : List (String × JVal)) (src : String)
    (hA : fieldOk fs "agents" notNull = true) :
    ∃ r, calculateOverallConfidence (.obj fs) src = Except.ok r := by
  unfold calculateOverallConfidence
  simp only [accessE_obj, bind_ok_red]
  rcases hla : lookupField fs "agents" with _ | va
  · simp only [truthyO_none, Bool.false_eq_true, if_false, Bool.false_and, pure, Except.pure,
      bind_ok_red]
    cases htt : truthyO (lookupField fs "tools") <;>
    cases hrt : truthyO (lookupField fs "relationships") <;>
    simp only [htt, hrt, accessE_ok_of_truthy, Bool.false_eq_true, Bool.true_and,
      Bool.false_and, if_true, if_false, pure, Except.pure, bind_ok_red] <;>
    exact ⟨_, rfl⟩
  · cases hat : jsTruthy va with
    | false =>
      simp only [truthyO_some, hat, Bool.false_eq_true, if_false, Bool.false_and, pure,
        Except.pure, bind_ok_red]
      cases htt : truthyO (lookupField fs "tools") <;>
      cases hrt : truthyO (lookupField fs "relationships") <;>
      simp only [htt, hrt, accessE_ok_of_truthy, Bool.false_eq_true, Bool.true_and,
        Bool.false_and, if_true, if_false, pure, Except.pure, bind_ok_red] <;>
      exact ⟨_, rfl⟩
    | true =>
      obtain ⟨agents, hva, halla⟩ := fieldOk_arr hA hla hat
      subst hva
      simp only [truthyO_some, hat, if_true, accessE_arr_length, bind_ok_red, Bool.true_and,
        nGt_len]
      cases hemp : agents.isEmpty with
      | false =>
        obtain ⟨scores, hsc, _, _⟩ := mapM_ok_of_forall (f := confidenceOf)
          (P := fun _ => True) agents
          (fun a ha => ⟨_, by
            unfold confidenceOf
            rw [accessE_notNull (halla a ha) "confidence", bind_ok_red]
            rfl, trivial⟩)
        simp only [hemp, Bool.not_false, if_true, hsc, bind_ok_red, pure, Except.pure]
        cases htt : truthyO (lookupField fs "tools") <;>
        cases hrt : truthyO (lookupField fs "relationships") <;>
        simp only [htt, hrt, accessE_ok_of_truthy, Bool.false_eq_true, Bool.true_and,
          Bool.false_and, if_true, if_false, pure, Except.pure, bind_ok_red] <;>
        exact ⟨_, rfl⟩
      | true =>
        simp only [hemp, Bool.not_true, Bool.false_eq_true, if_false, pure, Except.pure,
          bind_ok_red]
        cases htt : truthyO (lookupField fs "tools") <;>
        cases hrt : truthyO (lookupField fs "relationships") <;>
        simp only [htt, hrt, accessE_ok_of_truthy, Bool.false_eq_true, Bool.true_and,
          Bool.false_and, if_true, if_false, pure, Except.pure, bind_ok_red] <;>
        exact ⟨_, rfl⟩

theorem foldlM_ok_of_forall {α β : Type} {f : β → α → Except Unit β} :
    ∀ (l : List α), (∀ (b : β) (a : α), a ∈ l → ∃ b2, f b a = Except.ok b2) →
      ∀ init, ∃ r, l.foldlM f init = Except.ok r := by
  intro l
  induction l with
  | nil => intro _ init; exact ⟨init, rfl⟩
  | cons a t ih =>
    intro h init
    obtain ⟨b2, hb2⟩ := h init a (by simp)
    obtain ⟨r, hr⟩ := ih (fun b x hx => h b x (by simp [hx])) b2
    exact ⟨r, by rw [List.foldlM_cons, hb2, bind_ok_red, hr]⟩

theorem matchScoreF_zero (a e : JVal) (ha : notNull a = true) (he : notNull e = true) :
    matchScoreF 0 a e = Except.ok (some 0) := by
  cases a <;> cases e <;>
    first
    | exact Bool.noConfusion ha
    | exact Bool.noConfusion he
    | simp [matchScoreF]

theorem matchScoreF_succ (fuel : Nat) (a e : JVal) (ha : notNull a = true)
    (he : notNull e = true) :
    matchScoreF (fuel + 1) a e = (do
      let acc ← (entityKeys a e).foldlM (keyStep fuel a e) (some 0, 0)
      Except.ok (if 0 < acc.snd then nDivC acc.fst acc.snd else some 0)) := by
  cases a <;> cases e <;>
    first
    | exact Bool.noConfusion ha
    | exact Bool.noConfusion he
    | simp [matchScoreF]

theorem keyContrib_ok_of (fuel : Nat)
    (hm : ∀ a e, notNull a = true → notNull e = true →
      ∃ r, matchScoreF fuel a e = Except.ok r) :
    ∀ av ev, ∃ r, keyContribF fuel av ev = Except.ok r := by
  intro av ev
  cases ev <;> cases av <;>
    simp only [keyContribF, isObjectType, Bool.and_self, Bool.and_true, Bool.true_and,
      Bool.and_false, Bool.false_and, Bool.false_eq_true, eq_self_iff_true, if_false,
      if_true] <;>
    first
    | exact ⟨_, rfl⟩
    | (split_ifs <;> exact ⟨_, rfl⟩)
    | exact hm _ _ rfl rfl

theorem matchScoreF_ok : ∀ (fuel : Nat) (a e : JVal), notNull a = true → notNull e = true →
    ∃ r, matchScoreF fuel a e = Except.ok r := by
  intro fuel
  induction fuel with
  | zero => intro a e ha he; exact ⟨some 0, matchScoreF_zero a e ha he⟩
  | succ n ih =>
    intro a e ha he
    have hk : ∀ av ev, ∃ r, keyContribF n av ev = Except.ok r := keyContrib_ok_of n ih
    rw [matchScoreF_succ n a e ha he]
    have hstep : ∀ (b : JNum × Nat) (key : String), key ∈ entityKeys a e →
        ∃ b2, keyStep n a e b key = Except.ok b2 := by
      intro b key _
      cases hge : jvGet e key with
      | none => exact ⟨b, by simp only [keyStep, hge]⟩
      | some ev2 =>
        cases hga : jvGet a key with
        | none => exact ⟨(b.fst, b.snd + 1), by simp only [keyStep, hge, hga]⟩
        | some av2 =>
          obtain ⟨r2, hr2⟩ := hk av2 ev2
          exact ⟨(nAdd b.fst r2, b.snd + 1),
            by simp only [keyStep, hge, hga, hr2, bind_ok_red]⟩
    obtain ⟨acc, hacc⟩ := foldlM_ok_of_forall (f := keyStep n a e) (entityKeys a e)
      hstep (some 0, 0)
    exact ⟨_, by rw [hacc, bind_ok_red]⟩

theorem bestMatchFold_ok (e : JVal) (he : notNull e = true) :
    ∀ (l : List JVal), (∀ a ∈ l, notNull a = true) →
      ∀ best, ∃ r, bestMatchFold e l best = Except.ok r := by
  intro l
  induction l with
  | nil => intro _ best; exact ⟨best, rfl⟩
  | cons a t ih =>
    intro h best
    obtain ⟨ms, hms⟩ := matchScoreF_ok (jvSize a + jvSize e) a e (h a (by simp)) he
    simp only [bestMatchFold, calculateEntityMatchScore, hms, bind_ok_red]
    exact ih (fun x hx => h x (by simp [hx])) _

theorem accSum_ok (actual : List JVal) (hact : ∀ a ∈ actual, notNull a = true) :
    ∀ (exp2 : List JVal), (∀ e ∈ exp2, notNull e = true) →
      ∀ acc, ∃ r, accSum actual exp2 acc = Except.ok r := by
  intro exp2
  induction exp2 with
  | nil => intro _ acc; exact ⟨acc, rfl⟩
  | cons e t ih =>
    intro h acc
    obtain ⟨best, hbest⟩ := bestMatchFold_ok e (h e (by simp)) actual hact 0
    simp only [accSum, hbest, bind_ok_red]
    exact ih (fun x hx => h x (by simp [hx])) _

theorem entityAcc_ok (actual expected : List JVal)
    (hact : ∀ a ∈ actual, notNull a = true) (hexp : ∀ e ∈ expected, notNull e = true) :
    ∃ q, calculateEntityAccuracy actual expected = Except.ok q := by
  unfold calculateEntityAccuracy
  split_ifs
  · exact ⟨_, rfl⟩
  · exact ⟨_, rfl⟩
  · exact ⟨_, rfl⟩
  · obtain ⟨s, hs⟩ := accSum_ok actual hact expected hexp 0
    exact ⟨s / expected.length, by rw [hs, bind_ok_red]⟩

theorem scorer_ok (c : JVal) (src : String) (h : componentsOk c = true) :
    ∃ r, calculateConfidenceScores c src = Except.ok r := by
  unfold componentsOk at h
  simp only [Bool.and_eq_true] at h
  obtain ⟨⟨hA, hT⟩, hR⟩ := h
  obtain ⟨fs1, h1, hp1, hA1⟩ := mapEntityList_fieldOk hA (fun a ha => by
    rw [Bool.and_eq_true] at ha
    exact scoreAgent_ok src a ha.1 ha.2)
  have hT1 : fieldOk fs1 "tools" (fun t => notNull t && nameIsStr t) = true := by
    rw [fieldOk_congr (hp1 "tools" (by decide))]; exact hT
  have hR1 : fieldOk fs1 "relationships" notNull = true := by
    rw [fieldOk_congr (hp1 "relationships" (by decide))]; exact hR
  obtain ⟨fs2, h2, hp2, hT2⟩ := mapEntityList_fieldOk hT1 (fun t ht => by
    rw [Bool.and_eq_true] at ht
    exact scoreTool_ok src t ht.1 ht.2)
  have hA2 : fieldOk fs2 "agents" notNull = true := by
    rw [fieldOk_congr (hp2 "agents" (by decide))]; exact hA1
  have hR2 : fieldOk fs2 "relationships" notNull = true := by
    rw [fieldOk_congr (hp2 "relationships" (by decide))]; exact hR1
  obtain ⟨fs3, h3, hp3, hR3⟩ := mapEntityList_fieldOk hR2 (fun r hr => scoreRel_ok r hr)
  have hA3 : fieldOk fs3 "agents" notNull = true := by
    rw [fieldOk_congr (hp3 "agents" (by decide))]; exact hA2
  obtain ⟨pre, hpre⟩ := calcOverall_ok fs3 src hA3
  obtain ⟨comp, hcomp, _, _⟩ := assessCompleteness_bounds fs3
  obtain ⟨cons, hcons, _, _⟩ := assessConsistency_bounds fs3 hA3 hR3
  unfold calculateConfidenceScores
  simp only [h1, bind_ok_red, h2, h3, hpre, hcomp, hcons, pure, Except.pure]
  exact ⟨_, rfl⟩

theorem confs_of_scored : ∀ (l1 : List JVal),
    (∀ b ∈ l1, ∃ z : ℤ, (∃ fs2, b = .obj (("confidence", .num ((z : ℤ) : ℚ)) :: fs2)) ∧
      70 ≤ z ∧ z ≤ 100) →
    ∃ qs : List ℚ, l1.map (fun a => accessE (some a) "confidence") =
        qs.map (fun q => Except.ok (some (.num q))) ∧ (∀ q ∈ qs, 70 ≤ q ∧ q ≤ 100) ∧
      qs.length = l1.length := by
  intro l1
  induction l1 with
  | nil => intro _; exact ⟨[], rfl, by simp, rfl⟩
  | cons b t ih =>
    intro h
    obtain ⟨z, ⟨fs2, hb⟩, hz1, hz2⟩ := h b (by simp)
    obtain ⟨qs, hqs, hbd, hlen⟩ := ih (fun x hx => h x (by simp [hx]))
    refine ⟨((z : ℤ) : ℚ) :: qs, ?_, ?_, by simp [hlen]⟩
    · subst hb
      simp only [List.map_cons, hqs]
      congr 1
    · intro q hq2
      rcases List.mem_cons.mp hq2 with h2 | h2
      · subst h2; exact ⟨by exact_mod_cast hz1, by exact_mod_cast hz2⟩
      · exact hbd q h2

theorem formula_bounds (src : String) (l1 l2 l3 : List JVal) (qs : List ℚ)
    (hbd : ∀ q ∈ qs, 70 ≤ q ∧ q ≤ 100) (hqlen : qs.length = l1.length) :
    50 ≤ jsRound (65 + min 10 ((src.length : ℚ) / 200) +
      (if l1.isEmpty then (-15 : ℚ) else min 10 ((qs.sum / qs.length) / 10)) +
      (if l2.isEmpty then (0 : ℚ) else 5) +
      (if l3.isEmpty then (0 : ℚ) else 10)) ∧
    jsRound (65 + min 10 ((src.length : ℚ) / 200) +
      (if l1.isEmpty then (-15 : ℚ) else min 10 ((qs.sum / qs.length) / 10)) +
      (if l2.isEmpty then (0 : ℚ) else 5) +
      (if l3.isEmpty then (0 : ℚ) else 10)) ≤ 100 := by
  have hmin0 : (0 : ℚ) ≤ min 10 ((src.length : ℚ) / 200) := le_min (by norm_num) (by positivity)
  have hmin10 : min (10 : ℚ) ((src.length : ℚ) / 200) ≤ 10 := min_le_left _ _
  have hA : (-15 : ℚ) ≤ (if l1.isEmpty then (-15 : ℚ) else min 10 ((qs.sum / qs.length) / 10)) ∧
      (if l1.isEmpty then (-15 : ℚ) else min 10 ((qs.sum / qs.length) / 10)) ≤ 10 := by
    split_ifs with h
    · constructor <;> norm_num
    · have hpos : 0 < l1.length := by
        cases l1 with
        | nil => simp at h
        | cons x t => simp
      have hqpos : (0 : ℚ) < (qs.length : ℚ) := by
        rw [hqlen]; exact_mod_cast hpos
      obtain ⟨hs1, hs2⟩ := sum_bounds qs hbd
      have hm1 : (70 : ℚ) ≤ qs.sum / qs.length := by
        rw [le_div_iff hqpos]
        linarith
      constructor
      · have h7 : (7 : ℚ) ≤ min 10 ((qs.sum / qs.length) / 10) :=
          le_min (by norm_num) (by linarith)
        linarith
      · exact min_le_left _ _
  have hB : (0 : ℚ) ≤ (if l2.isEmpty then (0 : ℚ) else 5) ∧
      (if l2.isEmpty then (0 : ℚ) else 5) ≤ 5 := by
    split_ifs <;> constructor <;> norm_num
  have hC : (0 : ℚ) ≤ (if l3.isEmpty then (0 : ℚ) else 10) ∧
      (if l3.isEmpty then (0 : ℚ) else 10) ≤ 10 := by
    split_ifs <;> constructor <;> norm_num
  constructor
  · apply le_jsRound
    push_cast
    linarith [hA.1, hB.1, hC.1]
  · apply jsRound_le
    push_cast
    linarith [hA.2, hB.2, hC.2]

/-! ### Claim theorems -/

/-- C5: when the wrapped operation fails with an error whose message contains
"rate limit" on exactly its first two invocations and succeeds on the third,
`withRetry` returns the success value, the operation is invoked exactly 3
times, and the sleeps before the two retries are 1000 ms and then 2000 ms. -/
theorem withRetry_transient_retries {α : Type} (op : Nat → Except String α) (v : α)
    (m0 m1 : String)
    (h0 : op 0 = Except.error m0) (h0t : strIncludes m0 "rate limit" = true)
    (h1 : op 1 = Except.error m1) (h1t : strIncludes m1 "rate limit" = true)
    (h2 : op 2 = Except.ok v) :
    withRetry op = ⟨Except.ok v, 3, [1000, 2000]⟩ := by
  have t0 : transientError m0 = true := by simp [transientError, h0t]
  have t1 : transientError m1 = true := by simp [transientError, h1t]
  rw [withRetry, withRetryGo, h0]
  norm_num [t0]
  rw [withRetryGo, h1]
  norm_num [t1]
  rw [withRetryGo, h2]

/-- witness for C5 at a concrete operation. -/
theorem withRetry_transient_retries_witness :
    opC5 0 = Except.error "rate limit exceeded" ∧
    strIncludes "rate limit exceeded" "rate limit" = true ∧
    opC5 1 = Except.error "rate limit exceeded" ∧
    opC5 2 = Except.ok 42 ∧
    withRetry opC5 = ⟨Except.ok 42, 3, [1000, 2000]⟩ :=
  ⟨rfl, by decide, rfl, rfl,
    withRetry_transient_retries opC5 42 "rate limit exceeded" "rate limit exceeded"
      rfl (by decide) rfl (by decide) rfl⟩

/-- C6: when the operation fails on its first invocation with an error whose
message contains neither "rate limit" nor "timeout", `withRetry` invokes it
exactly once, sleeps never, and re-raises the same error value unchanged. -/
theorem withRetry_nontransient_propagates {α : Type} (op : Nat → Except String α)
    (m : String) (h0 : op 0 = Except.error m)
    (hrl : strIncludes m "rate limit" = false)
    (hto : strIncludes m "timeout" = false) :
    withRetry op = ⟨Except.error m, 1, []⟩ := by
  have ht : transientError m = false := by simp [transientError, hrl, hto]
  rw [withRetry, withRetryGo, h0]
  norm_num [ht]

/-- witness for C6 at a concrete operation. -/
theorem withRetry_nontransient_propagates_witness :
    opC6 0 = Except.error "permission denied" ∧
    strIncludes "permission denied" "rate limit" = false ∧
    strIncludes "permission denied" "timeout" = false ∧
    withRetry opC6 = ⟨Except.error "permission denied", 1, []⟩ :=
  ⟨rfl, by decide, by decide,
    withRetry_nontransient_propagates opC6 "permission denied" rfl (by decide) (by decide)⟩

/-- C8: normalizing `{"vertices":[{"id":"n1","name":"X"}],"links":[{"from":"n1","to":"n2"}]}`
yields exactly one node with id "n1", label "X" (from the `name` alias), and
type "agent" (the default), and an empty edge list: the edge read from the
`links` alias resolves its target from `to` to the unknown id "n2" and is
dropped. -/
theorem diagram_alias_normalization_scenario :
    normalizeDiagram inputC8 [] =
      Except.ok
        { nodes := [{ id := .str "n1", label := .str "X", type := .str "agent",
                      role := none, category := none, description := none,
                      size := some (.num 1), style := some (.obj []) }],
          edges := [], layout := .str "dagre", groups := none } := rfl

/-- C2: every edge retained by normalization has both its source and its
target among the normalized node ids; offending edges are dropped rather
than failing the operation. -/
theorem edge_validity_invariant (j : JVal) (agents : List InputAgent) (r : DiagramData)
    (h : normalizeDiagram j agents = Except.ok r) :
    ∀ e ∈ r.edges,
      nodeIdContains r.nodes e.source = true ∧ nodeIdContains r.nodes e.target = true := by
  unfold normalizeDiagram at h
  obtain ⟨lv, _, h⟩ := except_bind_ok h
  obtain ⟨nodes, hn, h⟩ := except_bind_ok h
  obtain ⟨edges, he, h⟩ := except_bind_ok h
  obtain ⟨groups, hg, h⟩ := except_bind_ok h
  simp only [pure, Except.pure, Except.ok.injEq] at h
  subst h
  intro e he2
  have hv := normEdges_valid he e he2
  unfold validEdge at hv
  simp only [Bool.and_eq_true] at hv
  exact hv

/-- witness for C2 at a concrete diagram whose single edge survives. -/
theorem edge_validity_invariant_witness :
    normalizeDiagram inputC2 [] =
      Except.ok
        { nodes := [{ id := .str "n1", label := .str "Node 0", type := .str "agent",
                      role := none, category := none, description := none,
                      size := some (.num 1), style := some (.obj []) }],
          edges := [{ id := .str "edge0", source := .str "n1", target := .str "n1",
                      label := .str "", type := .str "sequential", style := some (.obj []) }],
          layout := .str "dagre", groups := none } ∧
    ∀ e ∈ ({ nodes := [{ id := .str "n1", label := .str "Node 0", type := .str "agent",
                         role := none, category := none, description := none,
                         size := some (.num 1), style := some (.obj []) }],
             edges := [{ id := .str "edge0", source := .str "n1", target := .str "n1",
                         label := .str "", type := .str "sequential", style := some (.obj []) }],
             layout := .str "dagre", groups := none } : DiagramData).edges,
      nodeIdContains ({ nodes := [{ id := .str "n1", label := .str "Node 0",
                                    type := .str "agent", role := none, category := none,
                                    description := none, size := some (.num 1),
                                    style := some (.obj []) }],
                        edges := [{ id := .str "edge0", source := .str "n1",
                                    target := .str "n1", label := .str "",
                                    type := .str "sequential", style := some (.obj []) }],
                        layout := .str "dagre", groups := none } : DiagramData).nodes e.source = true ∧
      nodeIdContains ({ nodes := [{ id := .str "n1", label := .str "Node 0",
                                    type := .str "agent", role := none, category := none,
                                    description := none, size := some (.num 1),
                                    style := some (.obj []) }],
                        edges := [{ id := .str "edge0", source := .str "n1",
                                    target := .str "n1", label := .str "",
                                    type := .str "sequential", style := some (.obj []) }],
                        layout := .str "dagre", groups := none } : DiagramData).nodes e.target = true :=
  ⟨rfl, edge_validity_invariant inputC2 [] _ rfl⟩

/-- C3: for every agent with a string name, a string role and an absent-or-
string description, and every source text, the confidence assigned by the
scorer equals min(100, round(70 + min(15, len(description)/20, or 0 with no
description) + min(10, 2 × case-insensitive occurrences of the name in the
source) + (10 if len(role) > 10 else 0))). -/
theorem agent_confidence_formula (fs : List (String × JVal)) (nm rl : String)
    (dOpt : Option String) (src : String)
    (hn : lookupField fs "name" = some (.str nm))
    (hr : lookupField fs "role" = some (.str rl))
    (hd : lookupField fs "description" = dOpt.map JVal.str) :
    scoreAgent src (.obj fs) = Except.ok (.obj (("confidence",
      .num ((min 100 (jsRound (70 + min 15 (((dOpt.getD "").length : ℚ) / 20) +
        min 10 (2 * (countOccur nm src : ℚ)) +
        (if 10 < rl.length then (10 : ℚ) else 0))) : ℤ) : ℚ)) :: fs)) :=
  scoreAgent_eq fs nm rl dOpt src hn hr hd

/-- witness for C3 at a concrete agent and source text. -/
theorem agent_confidence_formula_witness :
    lookupField agentC3fs "name" = some (.str "Planner") ∧
    lookupField agentC3fs "role" = some (.str "coordinates all subtasks") ∧
    lookupField agentC3fs "description" =
      (some "plans and delegates work to the other agents").map JVal.str ∧
    scoreAgent srcC3 (.obj agentC3fs) = Except.ok (.obj (("confidence",
      .num ((min 100 (jsRound (70 +
        min 15 ((("plans and delegates work to the other agents" : String).length : ℚ) / 20) +
        min 10 (2 * (countOccur "Planner" srcC3 : ℚ)) +
        (if 10 < ("coordinates all subtasks" : String).length then (10 : ℚ) else 0))) : ℤ) : ℚ))
        :: agentC3fs)) :=
  ⟨rfl, rfl, rfl,
    agent_confidence_formula agentC3fs "Planner" "coordinates all subtasks"
      (some "plans and delegates work to the other agents") srcC3 rfl rfl rfl⟩

/-- C7: the entity-accuracy function returns 1 on two empty lists, 0 when
exactly one side is empty, and otherwise the sum over every expected entity
of the maximum per-entity match score against any actual entity (greedy and
independent per expected entity), divided by the number of expected
entities. -/
theorem entity_accuracy_policy :
    calculateEntityAccuracy [] [] = Except.ok 1 ∧
    (∀ actual : List JVal, actual ≠ [] → calculateEntityAccuracy actual [] = Except.ok 0) ∧
    (∀ expected : List JVal, expected ≠ [] → calculateEntityAccuracy [] expected = Except.ok 0) ∧
    ∀ (actual expected : List JVal), actual ≠ [] → expected ≠ [] →
      calculateEntityAccuracy actual expected = specEntityAccuracy actual expected := by
  refine ⟨rfl, ?_, ?_, ?_⟩
  · intro actual h
    unfold calculateEntityAccuracy
    simp [List.length_eq_zero, h]
  · intro expected h
    unfold calculateEntityAccuracy
    simp [List.length_eq_zero, h]
  · intro actual expected ha he
    unfold calculateEntityAccuracy specEntityAccuracy
    simp only [List.length_eq_zero, ha, he, if_false]
    rw [show (do
        let matchCount ← accSum actual expected 0
        Except.ok (matchCount / (expected.length : ℚ)) : Except Unit ℚ) =
      (accSum actual expected 0).bind (fun m => Except.ok (m / expected.length)) from rfl]
    rw [accSum_eq_specSum]
    cases hm : expected.mapM (fun e => specBest e actual) with
    | error err => rfl
    | ok bests => simp [Bind.bind, Except.bind, pure, Except.pure, zero_add]

/-- witness for C7 at concrete non-empty entity lists. -/
theorem entity_accuracy_policy_witness :
    ([JVal.obj [("name", .str "a")]] : List JVal) ≠ [] ∧
    ([JVal.obj []] : List JVal) ≠ [] ∧
    calculateEntityAccuracy [JVal.obj [("name", .str "a")]] [JVal.obj []] =
      specEntityAccuracy [JVal.obj [("name", .str "a")]] [JVal.obj []] :=
  ⟨by simp, by simp,
    entity_accuracy_policy.2.2.2 [JVal.obj [("name", .str "a")]] [JVal.obj []]
      (by simp) (by simp)⟩

/-- C9 counterexample: an agents list containing an object without a name
makes the confidence scorer throw (the TypeError from
`agent.name.replace(...)` on an undefined name), so the scorer does fail on
a structurally valid components object. -/
theorem scorer_missing_name_counterexample :
    calculateConfidenceScores (.obj [("agents", .arr [.obj []])]) "" =
      Except.error () := rfl

/-- C4: for every scored components object with agents, tools and
relationships arrays whose agents carry numeric confidences, the system
overall confidence equals round(65 + min(10, len(source)/200) + (min(10,
mean(agent confidences)/10) if any agents exist else -15) + (5 if tools
non-empty else 0) + (10 if relationships non-empty else 0)) clamped above
at 95, hence is at most 95. -/
theorem overall_confidence_formula (c : JVal) (src : String) (scored : JVal)
    (sc : SystemConfidence) (fs : List (String × JVal))
    (agents tools rels : List JVal) (qs : List ℚ)
    (h : calculateConfidenceScores c src = Except.ok (scored, sc))
    (hs : scored = .obj fs)
    (ha : lookupField fs "agents" = some (.arr agents))
    (ht : lookupField fs "tools" = some (.arr tools))
    (hr : lookupField fs "relationships" = some (.arr rels))
    (hq : agents.map (fun a => accessE (some a) "confidence") =
          qs.map (fun q => Except.ok (some (.num q)))) :
    sc.overall = some (((min 95 (jsRound (65 + min 10 ((src.length : ℚ) / 200) +
        (if agents.isEmpty then (-15 : ℚ) else min 10 ((qs.sum / qs.length) / 10)) +
        (if tools.isEmpty then (0 : ℚ) else 5) +
        (if rels.isEmpty then (0 : ℚ) else 10)))) : ℤ) : ℚ) ∧
      min 95 (jsRound (65 + min 10 ((src.length : ℚ) / 200) +
        (if agents.isEmpty then (-15 : ℚ) else min 10 ((qs.sum / qs.length) / 10)) +
        (if tools.isEmpty then (0 : ℚ) else 5) +
        (if rels.isEmpty then (0 : ℚ) else 10))) ≤ 95 := by
  obtain ⟨pre, hpre, hov⟩ := scorer_inv h
  subst hs
  rw [calcOverall_eq fs src agents tools rels qs ha ht hr hq] at hpre
  have hpre2 : pre = some (((jsRound (65 + min 10 ((src.length : ℚ) / 200) +
      (if agents.isEmpty then (-15 : ℚ) else min 10 ((qs.sum / qs.length) / 10)) +
      (if tools.isEmpty then (0 : ℚ) else 5) +
      (if rels.isEmpty then (0 : ℚ) else 10))) : ℤ) : ℚ) := by
    exact (Except.ok.injEq _ _).mp hpre.symm
  constructor
  · rw [hov, hpre2]
    show some (min (95 : ℚ) _) = _
    rw [Option.some.injEq]
    push_cast
    rfl
  · exact min_le_left _ _

set_option maxHeartbeats 1000000 in
/-- witness for C4 at a components object with empty entity arrays. -/
theorem overall_confidence_formula_witness :
    calculateConfidenceScores componentsC4 "" = Except.ok (componentsC4, scC4) ∧
    componentsC4 =
      JVal.obj [("agents", .arr []), ("tools", .arr []), ("relationships", .arr [])] ∧
    (scC4.overall = some (((min 95 (jsRound (65 + min 10 ((("" : String).length : ℚ) / 200) +
        (if ([] : List JVal).isEmpty then (-15 : ℚ)
         else min 10 ((([] : List ℚ).sum / ([] : List ℚ).length) / 10)) +
        (if ([] : List JVal).isEmpty then (0 : ℚ) else 5) +
        (if ([] : List JVal).isEmpty then (0 : ℚ) else 10)))) : ℤ) : ℚ) ∧
      min 95 (jsRound (65 + min 10 ((("" : String).length : ℚ) / 200) +
        (if ([] : List JVal).isEmpty then (-15 : ℚ)
         else min 10 ((([] : List ℚ).sum / ([] : List ℚ).length) / 10)) +
        (if ([] : List JVal).isEmpty then (0 : ℚ) else 5) +
        (if ([] : List JVal).isEmpty then (0 : ℚ) else 10))) ≤ 95) := by
  have hEval : calculateConfidenceScores componentsC4 "" = Except.ok (componentsC4, scC4) := by
    unfold componentsC4 scC4 calculateConfidenceScores
    simp [mapEntityList, spreadFields, setField, lookupField,
      calculateOverallConfidence, assessCompleteness, assessConsistency, assessClarity,
      accessE, jvGet, truthyO, jsTruthy, bind_ok_red, nGt_len, nGt, toNum,
      hasHeading, strIncludes, subFind,
      nAdd, nMin, nDivC, nRound, pure, Except.pure, List.mapM_nil, List.mapM.loop,
      List.reverse_nil]
    norm_num [jsRound, min_def]
  exact ⟨hEval, rfl,
    overall_confidence_formula componentsC4 "" componentsC4 scC4
      [("agents", .arr []), ("tools", .arr []), ("relationships", .arr [])]
      [] [] [] [] hEval rfl rfl rfl rfl rfl⟩

/-- C1 (amended): for every parser and every raw text, the extraction stage
of `generateSystemDiagram` equals the staged policy — trimmed brace-delimited
text, else a fenced block with non-empty interior, else the lazy
first-brace-to-first-closing-brace span of the whole text, then parsing with
exactly one lazy-regex fallback re-scan of the extracted candidate. -/
theorem extraction_staged_policy (parse : String → Bool) (text : String) :
    extractJson parse text = specExtract parse text := by
  unfold extractJson specExtract selectCandidate parseWithFallback
  by_cases h : (startsWithChar (jsTrim text) lbrace && endsWithChar (jsTrim text) rbrace) = true
  · simp [h]
  · simp only [Bool.not_eq_true] at h
    simp only [h]
    cases hf : fencedBlock text with
    | some g =>
      by_cases hg : g = ""
      · simp only [hg, if_true, eq_self_iff_true]
        cases hl : lazySpan text with
        | some m => simp
        | none => simp
      · simp [hg]
    | none =>
      cases hl : lazySpan text with
      | some m => simp
      | none => simp

/-- C1 counterexample: on `rawTextC1` the claimed permissive policy (first
brace to LAST closing brace) extracts the nested object and parses it, while
the code's lazy span (first brace to FIRST closing brace) and its equally
lazy fallback re-scan both produce an unbalanced prefix, so the code fails
with a malformed-JSON error. -/
theorem extraction_greedy_span_counterexample :
    greedySpan rawTextC1 = some "\x7b\"a\":\x7b\"b\":1\x7d\x7d" ∧
    jsonValid "\x7b\"a\":\x7b\"b\":1\x7d\x7d" = true ∧
    lazySpan rawTextC1 = some "\x7b\"a\":\x7b\"b\":1\x7d" ∧
    jsonValid "\x7b\"a\":\x7b\"b\":1\x7d" = false ∧
    claimExtract jsonValid rawTextC1 = Except.ok "\x7b\"a\":\x7b\"b\":1\x7d\x7d" ∧
    extractJson jsonValid rawTextC1 = Except.error ExtractionError.malformedJson :=
  ⟨rfl, by decide, rfl, by decide, rfl, rfl⟩

/-- C9 (amended): the confidence scorer cannot throw on a components object
whose `agents` and `tools` fields, when present and truthy, are arrays of
non-null entries with string names and whose `relationships` field, when
present and truthy, is an array of non-null entries; and the entity-match
evaluator cannot throw on lists of non-null entities.  (The unamended claim
— no failure on every structurally valid input — is refuted by the missing-
name counterexample.) -/
theorem scorer_evaluator_no_failure :
    (∀ (c : JVal) (src : String), componentsOk c = true →
      ∃ r, calculateConfidenceScores c src = Except.ok r) ∧
    (∀ (actual expected : List JVal), (∀ a ∈ actual, notNull a = true) →
      (∀ e ∈ expected, notNull e = true) →
      ∃ q, calculateEntityAccuracy actual expected = Except.ok q) :=
  ⟨fun c src h => scorer_ok c src h,
   fun actual expected ha he => entityAcc_ok actual expected ha he⟩

/-- `scorer_evaluator_no_failure` applied to a one-agent components object
and to a pair of one-entity lists. -/
theorem scorer_evaluator_no_failure_witness :
    (∃ r, calculateConfidenceScores componentsC9 "x" = Except.ok r) ∧
    (∃ q, calculateEntityAccuracy [JVal.obj [("name", JVal.str "A")]]
      [JVal.obj [("name", JVal.str "A")]] = Except.ok q) :=
  ⟨scorer_evaluator_no_failure.1 componentsC9 "x" (by decide),
   scorer_evaluator_no_failure.2 _ _ (by decide) (by decide)⟩

/-- C10: for every components object whose `agents`, `tools` and
`relationships` fields are arrays of well-typed entities and every source
text, the four system-level metrics are bounded within fixed positive
ranges: the pre-cap overall score lies in [50, 100] (so the capped overall
lies in [50, 95]), completeness lies in [50, 100], consistency lies in
[70, 90] and clarity lies in [60, 95]. -/
theorem system_metrics_bounds (c : JVal) (src : String)
    (agents tools rels : List JVal)
    (hla : lookupField (spreadFields c) "agents" = some (.arr agents))
    (hlt : lookupField (spreadFields c) "tools" = some (.arr tools))
    (hlr : lookupField (spreadFields c) "relationships" = some (.arr rels))
    (hta : ∀ a ∈ agents, agentTyped a = true)
    (htt : ∀ t ∈ tools, (notNull t && nameIsStr t) = true)
    (htr : ∀ r ∈ rels, notNull r = true) :
    ∃ (scored : JVal) (sc : SystemConfidence) (p : ℤ),
      calculateConfidenceScores c src = Except.ok (scored, sc) ∧
      sc.overall = some (min 95 (p : ℚ)) ∧ 50 ≤ p ∧ p ≤ 100 ∧
      (50 : ℚ) ≤ min 95 (p : ℚ) ∧ min (95 : ℚ) (p : ℚ) ≤ 95 ∧
      50 ≤ sc.completeness ∧ sc.completeness ≤ 100 ∧
      70 ≤ sc.consistency ∧ sc.consistency ≤ 90 ∧
      60 ≤ sc.clarity ∧ sc.clarity ≤ 95 := by
  have hagents2 : ∀ a ∈ agents, ∃ b, scoreAgent src a = Except.ok b ∧
      (∃ z : ℤ, (∃ fs2, b = JVal.obj (("confidence", JVal.num ((z : ℤ) : ℚ)) :: fs2)) ∧
        70 ≤ z ∧ z ≤ 100) := by
    intro a ha
    obtain ⟨z, hz, h1, h2⟩ := scoreAgent_bounds src a (hta a ha)
    exact ⟨_, hz, z, ⟨spreadFields a, rfl⟩, h1, h2⟩
  obtain ⟨l1, hm1, hlen1, hP1⟩ := mapM_ok_of_forall agents hagents2
  have h1 : mapEntityList (scoreAgent src) (spreadFields c) "agents" =
      Except.ok (setField (spreadFields c) "agents" (.arr l1)) := mapEntityList_arr hla hm1
  have hlt1 : lookupField (setField (spreadFields c) "agents" (.arr l1)) "tools"
      = some (.arr tools) := by
    rw [lookup_setField_ne _ _ _ _ (by decide)]; exact hlt
  have htools2 : ∀ t ∈ tools, ∃ b, scoreTool src t = Except.ok b ∧ notNull b = true := by
    intro t ht
    have h2 := htt t ht
    rw [Bool.and_eq_true] at h2
    obtain ⟨v, hv⟩ := scoreTool_ok src t h2.1 h2.2
    exact ⟨_, hv, rfl⟩
  obtain ⟨l2, hm2, hlen2, hP2⟩ := mapM_ok_of_forall tools htools2
  have h2 : mapEntityList (scoreTool src) (setField (spreadFields c) "agents" (.arr l1))
      "tools" = Except.ok (setField (setField (spreadFields c) "agents" (.arr l1)) "tools"
      (.arr l2)) := mapEntityList_arr hlt1 hm2
  have hlr2 : lookupField (setField (setField (spreadFields c) "agents" (.arr l1)) "tools"
      (.arr l2)) "relationships" = some (.arr rels) := by
    rw [lookup_setField_ne _ _ _ _ (by decide), lookup_setField_ne _ _ _ _ (by decide)]
    exact hlr
  have hrels2 : ∀ r ∈ rels, ∃ b, scoreRelationship r = Except.ok b ∧ notNull b = true := by
    intro r hr
    obtain ⟨v, hv⟩ := scoreRel_ok r (htr r hr)
    exact ⟨_, hv, rfl⟩
  obtain ⟨l3, hm3, hlen3, hP3⟩ := mapM_ok_of_forall rels hrels2
  have h3 : mapEntityList scoreRelationship (setField (setField (spreadFields c) "agents"
      (.arr l1)) "tools" (.arr l2)) "relationships" = Except.ok (setField (setField (setField
      (spreadFields c) "agents" (.arr l1)) "tools" (.arr l2)) "relationships" (.arr l3)) :=
    mapEntityList_arr hlr2 hm3
  have hA3 : lookupField (setField (setField (setField (spreadFields c) "agents" (.arr l1))
      "tools" (.arr l2)) "relationships" (.arr l3)) "agents" = some (.arr l1) := by
    rw [lookup_setField_ne _ _ _ _ (by decide), lookup_setField_ne _ _ _ _ (by decide)]
    exact lookup_setField_eq _ _ _ _ hla
  have hT3 : lookupField (setField (setField (setField (spreadFields c) "agents" (.arr l1))
      "tools" (.arr l2)) "relationships" (.arr l3)) "tools" = some (.arr l2) := by
    rw [lookup_setField_ne _ _ _ _ (by decide)]
    exact lookup_setField_eq _ _ _ _ hlt1
  have hR3 : lookupField (setField (setField (setField (spreadFields c) "agents" (.arr l1))
      "tools" (.arr l2)) "relationships" (.arr l3)) "relationships" = some (.arr l3) :=
    lookup_setField_eq _ _ _ _ hlr2
  obtain ⟨qs, hq, hbd, hqlen⟩ := confs_of_scored l1 hP1
  have hpre := calcOverall_eq (setField (setField (setField (spreadFields c) "agents"
    (.arr l1)) "tools" (.arr l2)) "relationships" (.arr l3)) src l1 l2 l3 qs hA3 hT3 hR3 hq
  obtain ⟨p, hpre2, hp50, hp100⟩ : ∃ p : ℤ,
      calculateOverallConfidence (JVal.obj (setField (setField (setField (spreadFields c)
        "agents" (.arr l1)) "tools" (.arr l2)) "relationships" (.arr l3))) src =
        Except.ok (some ((p : ℤ) : ℚ)) ∧ 50 ≤ p ∧ p ≤ 100 := by
    obtain ⟨hb1, hb2⟩ := formula_bounds src l1 l2 l3 qs hbd hqlen
    exact ⟨_, hpre, hb1, hb2⟩
  obtain ⟨comp, hcomp, hc1, hc2⟩ := assessCompleteness_bounds (setField (setField (setField
    (spreadFields c) "agents" (.arr l1)) "tools" (.arr l2)) "relationships" (.arr l3))
  have hfA : fieldOk (setField (setField (setField (spreadFields c) "agents" (.arr l1))
      "tools" (.arr l2)) "relationships" (.arr l3)) "agents" notNull = true := by
    unfold fieldOk
    rw [hA3]
    simp only [jsTruthy, if_true]
    exact List.all_eq_true.mpr (fun b hb => by
      obtain ⟨z, ⟨fs2, hbeq⟩, _, _⟩ := hP1 b hb
      subst hbeq; rfl)
  have hfR : fieldOk (setField (setField (setField (spreadFields c) "agents" (.arr l1))
      "tools" (.arr l2)) "relationships" (.arr l3)) "relationships" notNull = true := by
    unfold fieldOk
    rw [hR3]
    simp only [jsTruthy, if_true]
    exact List.all_eq_true.mpr hP3
  obtain ⟨cons, hcons, hn1, hn2⟩ := assessConsistency_bounds (setField (setField (setField
    (spreadFields c) "agents" (.arr l1)) "tools" (.arr l2)) "relationships" (.arr l3)) hfA hfR
  refine ⟨JVal.obj (setField (setField (setField (spreadFields c) "agents" (.arr l1)) "tools"
      (.arr l2)) "relationships" (.arr l3)),
    ⟨nMin (some 95) (some ((p : ℤ) : ℚ)), comp, cons, assessClarity src⟩,
    p, ?_, ?_, hp50, hp100, ?_, ?_, hc1, hc2, hn1, hn2,
    (assessClarity_bounds src).1, (assessClarity_bounds src).2⟩
  · unfold calculateConfidenceScores
    simp only [h1, bind_ok_red, h2, h3, hpre2, hcomp, hcons, pure, Except.pure]
  · rfl
  · exact le_min (by norm_num) (by exact_mod_cast hp50)
  · exact min_le_left _ _

/-- `system_metrics_bounds` applied to `componentsC10` (empty entity arrays
plus an orchestration pattern) and a short description. -/
theorem system_metrics_bounds_witness :
    ∃ (scored : JVal) (sc : SystemConfidence) (p : ℤ),
      calculateConfidenceScores componentsC10 "A workflow." = Except.ok (scored, sc) ∧
      sc.overall = some (min 95 (p : ℚ)) ∧ 50 ≤ p ∧ p ≤ 100 ∧
      (50 : ℚ) ≤ min 95 (p : ℚ) ∧ min (95 : ℚ) (p : ℚ) ≤ 95 ∧
      50 ≤ sc.completeness ∧ sc.completeness ≤ 100 ∧
      70 ≤ sc.consistency ∧ sc.consistency ≤ 90 ∧
      60 ≤ sc.clarity ∧ sc.clarity ≤ 95 :=
  system_metrics_bounds componentsC10 "A workflow." [] [] [] rfl rfl rfl
    (by simp) (by simp) (by simp)

end AgentOrch
